import Mathlib

/-!
# Propagation engine of the sync client (`src/mirall/owncloudpropagator.h`)

A shallow embedding of the job classes and of the engine declared in
`owncloudpropagator.h`, followed by the slots of the tray GUI
(`src/mirall/owncloudgui.cpp`) and the SSL button (`src/mirall/sslbutton.cpp`) that
report on a run.

* Objects are values; the address of an object (`this`) is a natural number kept
  in the field `self`, a pointer to another object is that object's `self`.
* A member function is a function from the object's state to the new state and
  the list of `Effect`s its body performed, in program order.  A call whose body
  is known is recorded together with the effects of that body, so the calls made
  *directly* by a body are the top-level entries of its list.
* `int` and `QAtomicInt` members are `Int`; none of the functions below can
  overflow them within a run (they count jobs).
* `QString` is a list of characters.
-/

namespace Mirall

/-! ## Data -/

/-- A `QString`: a sequence of characters. -/
abbrev QString := List Char

/-- The member `QString::endsWith(QChar)`: the last character exists and is `c`. -/
def QString.endsWith (s : QString) (c : Char) : Bool :=
  s.getLast? == some c

/-- Modelled from the spec: the enumeration `SyncFileItem::Status`, declared in
`syncfileitem.h` which is not part of these sources.  The header names `NoStatus`,
`NormalError`, `SoftError` and `FileIgnored`; the spec adds `Success` and
`FatalError`. -/
inductive SyncFileItem.Status where
  | NoStatus
  | FatalError
  | NormalError
  | SoftError
  | Success
  | FileIgnored
deriving DecidableEq, Repr

/-- Modelled from the spec: the kind of a Change Record
(new/updated/deleted/renamed/ignored/directory). -/
inductive ChangeKind where
  | new
  | updated
  | deleted
  | renamed
  | ignored
  | directory
deriving DecidableEq, Repr

/-- Modelled from the spec: a Change Record (`SyncFileItem`, declared in
`syncfileitem.h` which is not part of these sources): relative path, kind,
is-directory flag, expected size, modification time, rename target. -/
structure SyncFileItem where
  _file : QString
  _kind : ChangeKind
  _isDirectory : Bool
  _size : Nat
  _modtime : Int
  _renameTarget : QString
deriving DecidableEq, Repr

/-- The default-constructed item `SyncFileItem()`. -/
def SyncFileItem.default : SyncFileItem :=
  ⟨[], ChangeKind.new, false, 0, 0, []⟩

open SyncFileItem (Status)

/-- The signals of `PropagatorJob`. -/
inductive JobSignal where
  | finished
  | completed
  | ready
  | progress
deriving DecidableEq, Repr

/-- The receiving end of a `connect` made by `PropagateDirectory::startJob`: a slot
of the directory or one of its own signals (a relay). -/
inductive Receiver where
  | slotSubJobFinished
  | slotSubJobReady
  | signalCompleted
  | signalProgress
deriving DecidableEq, Repr

/-- What the body of a member function can do, besides changing its object.

* `abortCall callee body`: the virtual call `callee->abort()`, with the effects of
  the callee's body;
* `doneCall job status errorString body`: the call `done(status, errorString)` in
  `job`, with the effects of the body of `done` (defined outside the header);
* `emitReady job`: `emit ready()` in `job`;
* `emitFinished`: `emit finished()` in the engine;
* `connect sender sig receiver target queued`: one `connect(...)`;
* `invokeStart callee`: `QMetaObject::invokeMethod(callee, "start")`;
* `emitCompleted job item`, `emitJobFinished job status`: `emit completed(item)` and
  `emit finished(status)` in `job`;
* `fileSystem`, `network`, `journalWrite`: an action on a file, a request on the
  session, a write to the journal. -/
inductive Effect where
  | abortCall (callee : Nat) (body : List Effect)
  | doneCall (job : Nat) (status : Status) (errorString : QString) (body : List Effect)
  | emitReady (job : Nat)
  | emitFinished
  | connect (sender : Nat) (sig : JobSignal) (receiver : Nat) (target : Receiver)
      (queued : Bool)
  | invokeStart (callee : Nat)
  | emitCompleted (job : Nat) (item : SyncFileItem)
  | emitJobFinished (job : Nat) (status : Status)
  | fileSystem (path : QString)
  | network (path : QString)
  | journalWrite (path : QString)

/-- Is this effect an emission of the engine's `finished()`? -/
def Effect.isEmitFinished : Effect → Bool
  | .emitFinished => true
  | _ => false

/-- Is this effect an emission of a job's `ready()`? -/
def Effect.isEmitReady : Effect → Bool
  | .emitReady _ => true
  | _ => false

/-- Is this effect a call of `done` with the given status? -/
def Effect.isDoneWith (s : Status) : Effect → Bool
  | .doneCall _ t _ _ => decide (t = s)
  | _ => false

/-- Is this effect an action on the file system, the network or the journal? -/
def Effect.isExternalAction : Effect → Bool
  | .fileSystem _ => true
  | .network _ => true
  | .journalWrite _ => true
  | _ => false

/-- The object on which an `abort()` call was made, if the effect is one. -/
def Effect.abortCallee? : Effect → Option Nat
  | .abortCall callee _ => some callee
  | _ => none

/-- The objects on which a body called `abort()` directly, in call order. -/
def abortCallees (es : List Effect) : List Nat :=
  es.filterMap Effect.abortCallee?

/-- How many times a body emitted the engine's `finished()`. -/
def finishedCount (es : List Effect) : Nat :=
  es.countP Effect.isEmitFinished

/-- How many times a body emitted `ready()`. -/
def readyCount (es : List Effect) : Nat :=
  es.countP Effect.isEmitReady

/-! ## `PropagatorJob` -/

/-- The members of `class PropagatorJob`: the owning engine and the flag `_readySent`. -/
structure PropagatorJob where
  self : Nat
  _propagator : Nat
  _readySent : Bool
deriving DecidableEq, Repr

/-- The constructor `PropagatorJob(OwncloudPropagator* propagator)`:
`_propagator(propagator), _readySent(false)`. -/
def PropagatorJob.ctor (self propagator : Nat) : PropagatorJob :=
  { self := self, _propagator := propagator, _readySent := false }

/-- The member `PropagatorJob::emitReady()`. -/
def PropagatorJob.emitReady (j : PropagatorJob) : PropagatorJob × List Effect :=
  let wasReady := j._readySent
  let j1 := { j with _readySent := true }
  if !wasReady then (j1, [Effect.emitReady j.self]) else (j1, [])

/-- The default `virtual void abort() {}` of `PropagatorJob`: an empty body. -/
def PropagatorJob.abort (j : PropagatorJob) : PropagatorJob × List Effect :=
  (j, [])

/-- A sequence of `n` calls of `emitReady()` on one job, effects concatenated. -/
def PropagatorJob.emitReadyTimes : Nat → PropagatorJob → PropagatorJob × List Effect
  | 0, j => (j, [])
  | n + 1, j =>
    let r := j.emitReady
    let rest := PropagatorJob.emitReadyTimes n r.1
    (rest.1, r.2 ++ rest.2)

/-! ## `PropagateItemJob` and `PropagateIgnoreJob` -/

/-- The members of `class PropagateItemJob : public PropagatorJob`.  The private
`_restoreJob` is default-constructed (null) and no function of the header touches
it. -/
structure PropagateItemJob where
  base : PropagatorJob
  _item : SyncFileItem
deriving DecidableEq, Repr

/-- The constructor `PropagateItemJob(propagator, item)`. -/
def PropagateItemJob.ctor (self propagator : Nat) (item : SyncFileItem) : PropagateItemJob :=
  { base := PropagatorJob.ctor self propagator, _item := item }

/-- The type of the member `PropagateItemJob::done(status, errorString)`, whose body
is outside the header: it maps the job to its new state and the effects of the body. -/
abbrev DoneBody := PropagateItemJob → Status → QString → PropagateItemJob × List Effect

/-- Modelled from the spec: the body of `PropagateItemJob::done(status, errorString)`,
which is declared in the header and defined outside these sources.  A leaf job
"signals `completed(record)` then `finished(status)`". -/
def PropagateItemJob.done : DoneBody :=
  fun j status _ =>
    (j, [Effect.emitCompleted j.base.self j._item, Effect.emitJobFinished j.base.self status])

/-- The class `PropagateIgnoreJob : public PropagateItemJob` adds no member. -/
abbrev PropagateIgnoreJob := PropagateItemJob

/-- The constructor `PropagateIgnoreJob(propagator, item)`. -/
def PropagateIgnoreJob.ctor (self propagator : Nat) (item : SyncFileItem) :
    PropagateIgnoreJob :=
  PropagateItemJob.ctor self propagator item

/-- The member `PropagateIgnoreJob::start()`: `done(SyncFileItem::FileIgnored);`
(the error string takes its default, the empty `QString()`). -/
def PropagateIgnoreJob.start (done : DoneBody) (j : PropagateIgnoreJob) :
    PropagateIgnoreJob × List Effect :=
  let r := done j Status.FileIgnored []
  (r.1, [Effect.doneCall j.base.self Status.FileIgnored [] r.2])

/-- The member `abort()` of a `PropagateIgnoreJob`: it is not overridden in
`PropagateItemJob` nor in `PropagateIgnoreJob`, so it is `PropagatorJob::abort`. -/
def PropagateIgnoreJob.abort (j : PropagateIgnoreJob) : PropagateIgnoreJob × List Effect :=
  let r := PropagatorJob.abort j.base
  ({ j with base := r.1 }, r.2)

/-! ## `PropagateDirectory` and the job tree -/

/-- The members of `class PropagateDirectory : public PropagatorJob`, over the type
`J` of the jobs it owns. -/
structure PropagateDirectoryOf (J : Type) where
  base : PropagatorJob
  _firstJob : Option J
  _subJobs : List J
  _item : SyncFileItem
  _current : Int
  _runningNow : Int
  _hasError : Status

/-- A job of one of the concrete classes of the header, owning its sub-jobs. -/
inductive Job where
  | ignore (j : PropagateIgnoreJob)
  | directory (d : PropagateDirectoryOf Job)

/-- The class `PropagateDirectory`. -/
abbrev PropagateDirectory := PropagateDirectoryOf Job

/-- The address of a job. -/
def Job.self : Job → Nat
  | .ignore j => j.base.self
  | .directory d => d.base.self

/-- The constructor `PropagateDirectory(propagator, item)`:
`_firstJob(0), _item(item), _current(-1), _runningNow(0), _hasError(NoStatus)`. -/
def PropagateDirectory.ctor (self propagator : Nat) (item : SyncFileItem) :
    PropagateDirectory :=
  { base := PropagatorJob.ctor self propagator
    _firstJob := none
    _subJobs := []
    _item := item
    _current := -1
    _runningNow := 0
    _hasError := Status.NoStatus }

/-- The member `PropagateDirectory::append(subJob)`: `_subJobs.append(subJob)`. -/
def PropagateDirectory.append (d : PropagateDirectory) (subJob : Job) : PropagateDirectory :=
  { d with _subJobs := d._subJobs ++ [subJob] }

mutual
/-- The virtual member `abort()`, dispatched on the class of the job. -/
def Job.abort : Job → Job × List Effect
  | .ignore j =>
    let r := PropagateIgnoreJob.abort j
    (.ignore r.1, r.2)
  | .directory d =>
    let r := PropagateDirectory.abort d
    (.directory r.1, r.2)
/-- The member `PropagateDirectory::abort()`:
`if (_firstJob) _firstJob->abort(); foreach (PropagatorJob *j, _subJobs) j->abort();`. -/
def PropagateDirectory.abort : PropagateDirectoryOf Job → PropagateDirectoryOf Job × List Effect
  | ⟨base, firstJob, subJobs, item, current, runningNow, hasError⟩ =>
    let f := abortFirstJob firstJob
    let s := abortSubJobs subJobs
    (⟨base, f.1, s.1, item, current, runningNow, hasError⟩, f.2 ++ s.2)
/-- The statement `if (_firstJob) _firstJob->abort();`. -/
def abortFirstJob : Option Job → Option Job × List Effect
  | none => (none, [])
  | some j =>
    let r := Job.abort j
    (some r.1, [Effect.abortCall j.self r.2])
/-- The loop `foreach (PropagatorJob *j, _subJobs) j->abort();`. -/
def abortSubJobs : List Job → List Job × List Effect
  | [] => ([], [])
  | j :: js =>
    let r := Job.abort j
    let rest := abortSubJobs js
    (r.1 :: rest.1, Effect.abortCall j.self r.2 :: rest.2)
end

/-- The private slot `PropagateDirectory::startJob(next)`: four `connect`s (the first
one queued), `_runningNow++`, and the invocation of `next->start()`. -/
def PropagateDirectory.startJob (d : PropagateDirectory) (next : Job) :
    PropagateDirectory × List Effect :=
  ({ d with _runningNow := d._runningNow + 1 },
   [ Effect.connect next.self JobSignal.finished d.base.self Receiver.slotSubJobFinished true,
     Effect.connect next.self JobSignal.completed d.base.self Receiver.signalCompleted false,
     Effect.connect next.self JobSignal.progress d.base.self Receiver.signalProgress false,
     Effect.connect next.self JobSignal.ready d.base.self Receiver.slotSubJobReady false,
     Effect.invokeStart next.self ])

/-! ## `OwncloudPropagator` -/

/-- The members of `class OwncloudPropagator`.  `_neonThread`, `_session` and
`_journal` are pointers to objects outside the header, kept as addresses. -/
structure OwncloudPropagator where
  _rootJob : Option PropagateDirectory
  _neonThread : Nat
  _session : Nat
  _localDir : QString
  _remoteDir : QString
  _remoteFolder : QString
  _journal : Nat
  _downloadLimit : Int
  _uploadLimit : Int
  _abortRequested : Int
  _activeJobs : Int

/-- The expression `dir.endsWith(QChar('/')) ? dir : dir + '/'` of the constructor's
initialiser list. -/
def withTrailingSlash (dir : QString) : QString :=
  if QString.endsWith dir '/' then dir else dir ++ ['/']

/-- The constructor
`OwncloudPropagator(session, localDir, remoteDir, remoteFolder, progressDb, neonThread)`.
`_rootJob` is a null `QScopedPointer`, the three `QAtomicInt` are default-constructed
(zero), `_activeJobs(0)`. -/
def OwncloudPropagator.ctor (session : Nat) (localDir remoteDir remoteFolder : QString)
    (progressDb neonThread : Nat) : OwncloudPropagator :=
  { _rootJob := none
    _neonThread := neonThread
    _session := session
    _localDir := withTrailingSlash localDir
    _remoteDir := withTrailingSlash remoteDir
    _remoteFolder := withTrailingSlash remoteFolder
    _journal := progressDb
    _downloadLimit := 0
    _uploadLimit := 0
    _abortRequested := 0
    _activeJobs := 0 }

/-- The member `OwncloudPropagator::abort()`:
`_abortRequested.fetchAndStoreOrdered(true); if (_rootJob) _rootJob->abort(); emit finished();`
(`true` converts to the integer 1). -/
def OwncloudPropagator.abort (p : OwncloudPropagator) : OwncloudPropagator × List Effect :=
  let p1 := { p with _abortRequested := 1 }
  match p1._rootJob with
  | some root =>
    let r := PropagateDirectory.abort root
    ({ p1 with _rootJob := some r.1 },
     [Effect.abortCall root.base.self r.2, Effect.emitFinished])
  | none => (p1, [Effect.emitFinished])

/-- A sequence of `n` calls of `OwncloudPropagator::abort()`, effects concatenated. -/
def OwncloudPropagator.abortTimes : Nat → OwncloudPropagator → OwncloudPropagator × List Effect
  | 0, p => (p, [])
  | n + 1, p =>
    let r := p.abort
    let rest := OwncloudPropagator.abortTimes n r.1
    (rest.1, r.2 ++ rest.2)

/-- Is the abort-requested flag set (non-zero)? -/
def OwncloudPropagator.abortRequested (p : OwncloudPropagator) : Bool :=
  decide (p._abortRequested ≠ 0)

/-- Modelled from the spec: `OwncloudPropagator::start(syncedItems)`, declared in the
header and defined outside these sources: the engine "builds the job tree from the
ordered change list, owns the root Composite Job" and "starts the root".  The
construction of the tree (`createJob`) is not in the sources either, so the root
built from the list is the argument. -/
def OwncloudPropagator.start (p : OwncloudPropagator) (root : PropagateDirectory) :
    OwncloudPropagator × List Effect :=
  ({ p with _rootJob := some root }, [Effect.invokeStart root.base.self])

/-- The operations of the engine: the member functions `start` and `abort`, and
the writes to the public members that hold the byte-rate limits and the number of
active jobs.  (`overallTransmissionSizeChanged` and `isInSharedDirectory` are
declared in the header, defined outside the sources and absent from the spec: they
are left out.) -/
inductive EngineOp where
  | start (root : PropagateDirectory)
  | abort
  | setDownloadLimit (limit : Int)
  | setUploadLimit (limit : Int)
  | setActiveJobs (count : Int)

/-- Is the operation a call of `abort()`? -/
def EngineOp.isAbort : EngineOp → Bool
  | .abort => true
  | _ => false

/-- One operation applied to the engine. -/
def OwncloudPropagator.step (p : OwncloudPropagator) : EngineOp → OwncloudPropagator
  | .start root => (p.start root).1
  | .abort => p.abort.1
  | .setDownloadLimit limit => { p with _downloadLimit := limit }
  | .setUploadLimit limit => { p with _uploadLimit := limit }
  | .setActiveJobs count => { p with _activeJobs := count }

/-- A sequence of operations applied to the engine, first to last. -/
def OwncloudPropagator.run (p : OwncloudPropagator) (ops : List EngineOp) : OwncloudPropagator :=
  ops.foldl OwncloudPropagator.step p

mutual
/-- Is the effect an `abort()` call whose body, in turn, only forwards `abort()`? -/
def Effect.forwardsOnly : Effect → Bool
  | .abortCall _ body => allForwardOnly body
  | _ => false
/-- Do all the effects of the list only forward `abort()`? -/
def allForwardOnly : List Effect → Bool
  | [] => true
  | e :: es => Effect.forwardsOnly e && allForwardOnly es
end

/-! ## Sample objects -/

/-- A change record for the file `a/f1` of ten bytes. -/
def sampleItem : SyncFileItem :=
  ⟨['a', '/', 'f', '1'], ChangeKind.ignored, false, 10, 0, []⟩

/-- A `PropagateIgnoreJob` at address 11, as constructed: never started. -/
def sampleIgnoreJob : PropagateIgnoreJob :=
  PropagateIgnoreJob.ctor 11 1 sampleItem

/-- A directory job at address 10 with a self-job at address 12 and the child
`sampleIgnoreJob`, as constructed and filled: nothing started. -/
def sampleDirectory : PropagateDirectory :=
  { (PropagateDirectory.ctor 10 1 SyncFileItem.default).append (Job.ignore sampleIgnoreJob) with
    _firstJob := some (Job.ignore (PropagateIgnoreJob.ctor 12 1 SyncFileItem.default)) }

/-- An engine at address 1 whose root job is `sampleDirectory`. -/
def sampleEngine : OwncloudPropagator :=
  { OwncloudPropagator.ctor 2 ['/', 'h'] ['/', 'r', '/'] [] 3 4 with
    _rootJob := some sampleDirectory }

/-! ## The run of a directory job

The bodies of `PropagateDirectory::start`, `slotSubJobFinished` and `slotSubJobReady`
are outside the header; they are modelled from the spec (sections 4.2, 4.4 and 7), on
top of `startJob`, `emitReady` and `abort` of the header.  The engine of the header
has no member for the concurrency cap: it is the parameter `cap`. -/

/-- The `PropagatorJob` part of a job. -/
def Job.base : Job → PropagatorJob
  | .ignore j => j.base
  | .directory d => d.base

/-- The member `emitReady()` called in a job. -/
def Job.emitReady : Job → Job × List Effect
  | .ignore j =>
    let r := j.base.emitReady
    (.ignore { j with base := r.1 }, r.2)
  | .directory d =>
    let r := d.base.emitReady
    (.directory { d with base := r.1 }, r.2)

/-- Modelled from the spec: the status of an Execution Job, "NotStarted, Running,
Finished-with-kind", and the "Finished/Aborted state" that an un-started job
reaches when it receives `abort()`.  The classes of the header do not store it. -/
inductive JobStatus where
  | NotStarted
  | Running
  | Finished (kind : Status)
  | Aborted
deriving DecidableEq, Repr

/-- The outcome of a finished job; an aborted job has none. -/
def JobStatus.kind? : JobStatus → Option Status
  | .Finished kind => some kind
  | _ => none

/-- Has the job reached "Finished", with an outcome or aborted? -/
def JobStatus.isFinished : JobStatus → Bool
  | .Finished _ => true
  | .Aborted => true
  | _ => false

/-- Modelled from the spec: a job receives `abort()`: "an un-started child receiving
`abort()` must transition directly to a Finished/Aborted state without performing
its action"; "already-running jobs must still be allowed to finish", and a finished
job stays as it is. -/
def JobStatus.abort : JobStatus → JobStatus
  | .NotStarted => .Aborted
  | .Running => .Running
  | .Finished kind => .Finished kind
  | .Aborted => .Aborted

/-- Modelled from the spec: the severity of an outcome.  "FileIgnored (deliberate
skip, not a failure)", then the "escalating failure severities" SoftError,
NormalError, FatalError. -/
def SyncFileItem.Status.severity : Status → Nat
  | .NoStatus => 0
  | .Success => 0
  | .FileIgnored => 0
  | .SoftError => 1
  | .NormalError => 2
  | .FatalError => 3

/-- Modelled from the spec: "merge its error severity into the aggregate", the
aggregate being "the maximum severity of self-job and all children": the more
severe of the two is kept.  (The header's comment on `_hasError` names `NoStatus`,
`NormalError` and `SoftError`; in the spec the aggregate can be `FatalError` too.) -/
def mergeSeverity (aggregate status : Status) : Status :=
  if aggregate.severity < status.severity then status else aggregate

/-- Modelled from the spec: a directory job during a run: the members of the header
(`dir`), the abort-requested flag of the engine as the directory reads it through
`_propagator`, the status of the directory, of its self-job and of each child, and a
record of every child start: the address of the child and the number of children
that were running when it was started. -/
structure DirectoryRun where
  dir : PropagateDirectory
  abortRequested : Bool
  status : JobStatus
  selfStatus : JobStatus
  childStatus : List JobStatus
  childStarts : List (Nat × Nat)

/-- Modelled from the spec: a directory job before its run: the directory, itself
"NotStarted", with its self-job and all its children "NotStarted"; no abort is
requested. -/
def DirectoryRun.init (d : PropagateDirectory) : DirectoryRun :=
  { dir := d
    abortRequested := false
    status := JobStatus.NotStarted
    selfStatus := JobStatus.NotStarted
    childStatus := List.replicate d._subJobs.length JobStatus.NotStarted
    childStarts := [] }

/-- A directory job as constructed and filled: the constructor, an optional self-job
stored in `_firstJob`, and the children appended in order. -/
def PropagateDirectory.build (self propagator : Nat) (item : SyncFileItem)
    (firstJob : Option Job) (children : List Job) : PropagateDirectory :=
  children.foldl PropagateDirectory.append
    { PropagateDirectory.ctor self propagator item with _firstJob := firstJob }

/-- The number of children of the directory that are running. -/
def DirectoryRun.runningChildren (r : DirectoryRun) : Nat :=
  r.childStatus.count JobStatus.Running

/-- The number of jobs of the directory that are running: its self-job and its
children. -/
def DirectoryRun.runningCount (r : DirectoryRun) : Nat :=
  (if r.selfStatus = JobStatus.Running then 1 else 0) + r.runningChildren

/-- The outcomes of the jobs of the directory that have finished: self-job first,
then children in list order. -/
def DirectoryRun.outcomes (r : DirectoryRun) : List Status :=
  (r.selfStatus :: r.childStatus).filterMap JobStatus.kind?

/-- Have the self-job, if any, and all the children reached "Finished"? -/
def DirectoryRun.allFinished (r : DirectoryRun) : Bool :=
  (r.dir._firstJob.isNone || r.selfStatus.isFinished) && r.childStatus.all JobStatus.isFinished

/-- Modelled from the spec: a "higher-priority job is still pending readiness": a job
started before the next child, that is the self-job or the child started last (at
index `_current`), is running and has not sent `ready()`. -/
def DirectoryRun.pendingReadiness (r : DirectoryRun) : Bool :=
  (match r.dir._firstJob with
    | some first => decide (r.selfStatus = JobStatus.Running) && !first.base._readySent
    | none => false) ||
  (decide (0 ≤ r.dir._current) &&
    match r.dir._subJobs.get? r.dir._current.toNat, r.childStatus.get? r.dir._current.toNat with
    | some j, some s => decide (s = JobStatus.Running) && !j.base._readySent
    | _, _ => false)

/-- Modelled from the spec: "start the next child in sequence order": `startJob(next)`
of the header, `_current` moved to the child, the child recorded as running. -/
def DirectoryRun.startChild (r : DirectoryRun) (index : Nat) (next : Job) : DirectoryRun :=
  { r with
    dir := { (r.dir.startJob next).1 with _current := index }
    childStatus := r.childStatus.set index JobStatus.Running
    childStarts := r.childStarts ++ [(next.self, r.runningChildren)] }

/-- Modelled from the spec: the helper that starts the next eligible child: "while
the number of children currently running is below the Engine's concurrency cap and
there remain un-started children and no higher-priority job is still pending
readiness, start the next child in sequence order"; and "no new job may be started
once" the abort-requested flag is set.  The next child is the one at index
`_current + 1`.  Every turn of the loop starts one child, so the number of children
bounds the number of turns. -/
def DirectoryRun.scheduleLoop (cap : Nat) : Nat → DirectoryRun → DirectoryRun
  | 0, r => r
  | turns + 1, r =>
    if r.abortRequested = false ∧ r.runningChildren < cap ∧
        r.dir._current + 1 < r.dir._subJobs.length ∧ r.pendingReadiness = false then
      match r.dir._subJobs.get? (r.dir._current + 1).toNat with
      | some next =>
        DirectoryRun.scheduleLoop cap turns (r.startChild (r.dir._current + 1).toNat next)
      | none => r
    else r

/-- Modelled from the spec: the status that a directory job reports: the "aggregated
severity", which is `_hasError`; without any failure (`_hasError` still `NoStatus`)
the "final status" is "Success", as in the scenario of section 8. -/
def DirectoryRun.reportStatus (r : DirectoryRun) : Status :=
  if r.dir._hasError = Status.NoStatus then Status.Success else r.dir._hasError

/-- Modelled from the spec: "When every self-job and child has reached Finished, the
Composite Job itself finishes, report status = aggregated severity". -/
def DirectoryRun.finishIfDone (r : DirectoryRun) : DirectoryRun :=
  if r.status = JobStatus.Running ∧ r.allFinished = true then
    { r with status := JobStatus.Finished r.reportStatus }
  else r

/-- Modelled from the spec: `PropagateDirectory::slotSubJobReady()`: a child's
`ready()` "is the trigger to consider starting the next sibling". -/
def DirectoryRun.slotSubJobReady (cap : Nat) (r : DirectoryRun) : DirectoryRun :=
  (DirectoryRun.scheduleLoop cap r.dir._subJobs.length r).finishIfDone

/-- Modelled from the spec: `abort()` reaches the directory job.  The abort-requested
flag is set ("abort-requested, once set, is permanent for the run");
`PropagateDirectory::abort()` of the header "forwards to the self-job and to every
child, started or not", and every job that has not started, the directory itself
included, goes "directly to a Finished/Aborted state without performing its action".
The running jobs are left to finish. -/
def DirectoryRun.abort (r : DirectoryRun) : DirectoryRun :=
  DirectoryRun.finishIfDone
    { r with
      dir := (PropagateDirectory.abort r.dir).1
      abortRequested := true
      status := r.status.abort
      selfStatus := r.selfStatus.abort
      childStatus := r.childStatus.map JobStatus.abort }

/-- Modelled from the spec: `PropagateDirectory::slotSubJobFinished(status)`:
"decrement the running count, merge its error severity into the aggregate ... and
attempt to start further eligible children"; but "any FatalError from any Leaf Job
aborts the remainder of the run": "FatalError is the only kind that triggers
engine-level `abort()` of the remaining tree", which reaches this directory. -/
def DirectoryRun.slotSubJobFinished (cap : Nat) (r : DirectoryRun) (status : Status) :
    DirectoryRun :=
  if status = Status.FatalError then
    DirectoryRun.abort
      { r with dir := { r.dir with
          _runningNow := r.dir._runningNow - 1
          _hasError := mergeSeverity r.dir._hasError status } }
  else
    DirectoryRun.slotSubJobReady cap
      { r with dir := { r.dir with
          _runningNow := r.dir._runningNow - 1
          _hasError := mergeSeverity r.dir._hasError status } }

/-- Modelled from the spec: `PropagateDirectory::start()`: "if a self-job exists,
start it; otherwise proceed directly to children". -/
def DirectoryRun.start (cap : Nat) (r : DirectoryRun) : DirectoryRun :=
  match r.dir._firstJob with
  | some first =>
    { r with
      status := JobStatus.Running
      dir := (r.dir.startJob first).1
      selfStatus := JobStatus.Running }
  | none => DirectoryRun.slotSubJobReady cap { r with status := JobStatus.Running }

/-- Modelled from the spec: what can happen to a directory job during a run: it is
started; its self-job or the child at `index` signals `finished(status)`; its
self-job or the child at `index` signals `ready()`; `abort()` reaches it. -/
inductive RunEvent where
  | start
  | selfFinished (status : Status)
  | childFinished (index : Nat) (status : Status)
  | selfReady
  | childReady (index : Nat)
  | abort
deriving DecidableEq, Repr

/-- Modelled from the spec: one event of the run.  `start()` is "callable exactly once
per job instance", and not on an aborted job; only a running job finishes or sends
`ready()`, the latter through `emitReady()` of the header, so at most once; the
`finished` and `ready` signals of a job reach the slots that `startJob` connected;
`abort()` "may be requested at any time". -/
def DirectoryRun.step (cap : Nat) (r : DirectoryRun) : RunEvent → DirectoryRun
  | .start => if r.status = JobStatus.NotStarted then r.start cap else r
  | .selfFinished status =>
    if r.selfStatus = JobStatus.Running then
      DirectoryRun.slotSubJobFinished cap { r with selfStatus := JobStatus.Finished status } status
    else r
  | .childFinished index status =>
    if r.childStatus.get? index = some JobStatus.Running then
      DirectoryRun.slotSubJobFinished cap
        { r with childStatus := r.childStatus.set index (JobStatus.Finished status) } status
    else r
  | .selfReady =>
    match r.dir._firstJob with
    | some first =>
      if r.selfStatus = JobStatus.Running ∧ first.base._readySent = false then
        DirectoryRun.slotSubJobReady cap
          { r with dir := { r.dir with _firstJob := some (first.emitReady).1 } }
      else r
    | none => r
  | .childReady index =>
    match r.dir._subJobs.get? index with
    | some j =>
      if r.childStatus.get? index = some JobStatus.Running ∧ j.base._readySent = false then
        DirectoryRun.slotSubJobReady cap
          { r with dir := { r.dir with _subJobs := r.dir._subJobs.set index (j.emitReady).1 } }
      else r
    | none => r
  | .abort => r.abort

/-- Modelled from the spec: a run, that is a sequence of events, first to last. -/
def DirectoryRun.run (cap : Nat) (r : DirectoryRun) (events : List RunEvent) : DirectoryRun :=
  events.foldl (DirectoryRun.step cap) r

/-- The invariant of the run of a directory job under the cap `cap`:
`_runningNow` is the number of running jobs; every child has a status; the children
after `_current` are not started, or aborted, and not started as long as no abort
is requested; before `start()`, and in an aborted directory, nothing was started;
only an existing self-job runs; at most `cap` children run; every child was started
with fewer than `cap` children running, and the children up to `_current` are those
that were started; `_hasError` is at least as severe as every outcome, it is
`NoStatus` or one of the outcomes, and `NoStatus` or a failure; a `FatalError` among
the outcomes has set the abort-requested flag; a finished directory reports
`reportStatus` and all its jobs have finished. -/
structure DirectoryRun.Invariant (cap : Nat) (r : DirectoryRun) : Prop where
  running_eq : r.dir._runningNow = (r.runningCount : Int)
  length_eq : r.childStatus.length = r.dir._subJobs.length
  current_ge : -1 ≤ r.dir._current
  after_current : ∀ i : Nat, r.dir._current < (i : Int) → i < r.childStatus.length →
    r.childStatus.get? i = some JobStatus.NotStarted ∨
      r.childStatus.get? i = some JobStatus.Aborted
  unaborted : r.abortRequested = false →
    ∀ i : Nat, r.dir._current < (i : Int) → i < r.childStatus.length →
      r.childStatus.get? i = some JobStatus.NotStarted
  not_started : r.status = JobStatus.NotStarted ∨ r.status = JobStatus.Aborted →
    (r.selfStatus = JobStatus.NotStarted ∨ r.selfStatus = JobStatus.Aborted) ∧
      r.dir._current = -1
  self_running : r.selfStatus = JobStatus.Running → r.dir._firstJob.isSome = true
  children_le : r.runningChildren ≤ cap
  starts_lt : ∀ p ∈ r.childStarts, p.2 < cap
  starts_length : (r.childStarts.length : Int) = r.dir._current + 1
  severity_le : ∀ s ∈ r.outcomes, s.severity ≤ r.dir._hasError.severity
  severity_mem : r.dir._hasError = Status.NoStatus ∨ r.dir._hasError ∈ r.outcomes
  aggregate_kind : r.dir._hasError = Status.NoStatus ∨ 1 ≤ r.dir._hasError.severity
  fatal_aborts : Status.FatalError ∈ r.outcomes → r.abortRequested = true
  finished : ∀ k, r.status = JobStatus.Finished k →
    k = r.reportStatus ∧ r.allFinished = true

/-- What stops the execution of a function: a use that C++, or the Qt container,
leaves undefined. -/
inductive Fault where
  | nullDereference
  | lastOfEmptyList
  | divisionByZero
deriving DecidableEq, Repr

/-- The use `p->member` of a pointer: the pointee, or the fault when `p` is null. -/
def deref {α : Type} (p : Option α) : Except Fault α :=
  match p with
  | some pointee => Except.ok pointee
  | none => Except.error Fault.nullDereference

/-- An argument given to `QString::arg`: a string or an integer. -/
inductive TextArg where
  | str (s : QString)
  | num (n : Int)
deriving DecidableEq, Repr

/-- A text `tr(source).arg(...)...`: the source text to translate and the arguments
that replace its place markers `%1`, `%2`, ... -/
structure TrText where
  source : String
  args : List TextArg
deriving DecidableEq, Repr

/-- The text `tr(source)`, without arguments. -/
def tr (source : String) : TrText :=
  { source := source, args := [] }

/-- The member `QString::arg`, for one more argument. -/
def TrText.arg (t : TrText) (a : TextArg) : TrText :=
  { t with args := t.args ++ [a] }

/-- The enumerators of `Progress::Kind` that `owncloudgui.cpp` names.  The enumeration
is declared in `progressdispatcher.h`, outside these sources; `other` stands for
each of its remaining enumerators. -/
inductive Progress.Kind where
  | StartSync
  | EndDownload
  | EndUpload
  | EndDelete
  | EndSync
  | other (enumerator : Nat)
deriving DecidableEq, Repr

/-- A `QDateTime`, as milliseconds since the epoch. -/
structure QDateTime where
  msecsSinceEpoch : Int
deriving DecidableEq, Repr

/-- The members of `Progress::Info` (declared in `progressdispatcher.h`, outside these
sources) that `owncloudgui.cpp` reads. -/
structure Progress.Info where
  kind : Progress.Kind
  current_file : QString
  timestamp : QDateTime
  current_file_no : Int
  overall_file_count : Int
  overall_current_bytes : Int
  overall_transmission_size : Int
deriving DecidableEq, Repr

/-- A `double`, kept as the expression that computes it: its rounding is not modelled. -/
inductive DoubleExpr where
  | ofInt (n : Int)
  | div (dividend divisor : DoubleExpr)
  | mul (left right : DoubleExpr)
deriving DecidableEq, Repr

/-- The division `dividend / (double)divisor` of a `double` by a converted integer:
the fault when the divisor is zero. -/
def DoubleExpr.divide (dividend : DoubleExpr) (divisor : Int) : Except Fault DoubleExpr :=
  if divisor = 0 then Except.error Fault.divisionByZero
  else Except.ok (DoubleExpr.div dividend (DoubleExpr.ofInt divisor))

/-- The members of `Folder` (declared in `folder.h`, outside these sources) that
`slotFolderOpenAction` reads. -/
structure Folder where
  path : QString
deriving DecidableEq, Repr

/-- A `QUrl`: parsed from a text, with the scheme set afterwards if any, or made by
`QUrl::fromLocalFile`. -/
inductive QUrl where
  | parsed (text : QString) (scheme : Option String)
  | fromLocalFile (path : QString)
deriving DecidableEq, Repr

/-- The constructor `QUrl(text, QUrl::TolerantMode)`. -/
def QUrl.ctor (text : QString) : QUrl :=
  QUrl.parsed text none

/-- The member `QUrl::setScheme`. -/
def QUrl.setScheme (url : QUrl) (scheme : String) : QUrl :=
  match url with
  | .parsed text _ => QUrl.parsed text (some scheme)
  | .fromLocalFile path => QUrl.parsed path (some scheme)

/-- The member `QUrl::setUrl`: the URL is parsed anew from the text. -/
def QUrl.setUrl (_url : QUrl) (text : QString) : QUrl :=
  QUrl.parsed text none

/-- The member `QString::startsWith(text)`. -/
def QString.startsWith (s text : QString) : Bool :=
  text.isPrefixOf s

/-- The function `QDir::toNativeSeparators` on Windows: every `/` becomes a backslash
(character 92). -/
def toNativeSeparators (path : QString) : QString :=
  path.map (fun c => if c = '/' then Char.ofNat 92 else c)

/-- A `QIcon`: the null icon `QIcon()` or the icon of a resource. -/
inductive QIcon where
  | null
  | resource (path : String)
deriving DecidableEq, Repr

/-- What the slots of `ownCloudGui` read from outside these sources:
`Utility::octetsToString`, `Utility::compactFormatDouble`, `Progress::asResultString`,
`QDateTime::toString(format)`, the list that
`ProgressDispatcher::instance()->recentChangedItems(count)` returns, the pointer that
`FolderMan::instance()->folder(alias)` returns (null when there is no folder),
whether `Q_OS_WIN32` is defined, and whether `qDebug()` evaluates what is streamed
to it (it does, unless the build defines `QT_NO_DEBUG_OUTPUT`). -/
structure GuiEnv where
  octetsToString : Int → QString
  compactFormatDouble : DoubleExpr → Int → QString
  asResultString : Progress.Kind → QString
  timeToString : QDateTime → String → QString
  recentChangedItems : Int → List Progress.Info
  folder : QString → Option Folder
  win32 : Bool
  debugOutput : Bool

/-- What the body of a slot of `ownCloudGui` does.

* `setStatusText`, `setQuotaText`: `setText` on `_actionStatus`, on `_actionQuota`;
* `setRecentIcon`: `_actionRecent->setIcon(icon)`;
* `recentMenuClear`, `recentMenuAddText`, `recentMenuAddRecentAction`: on
  `_recentActionsMenu`, `clear()`, `addAction(text)`, `addAction(_actionRecent)`;
* `rebuildRecentMenus body`: a call of `slotRebuildRecentMenus()`, with the effects
  of its body;
* `singleShotDisplayIdle msec`: `QTimer::singleShot(msec, this, SLOT(slotDisplayIdle()))`;
* `debug message value`: `qDebug() << message << value`;
* `openUrl url`: `QDesktopServices::openUrl(url)`. -/
inductive GuiEffect where
  | setStatusText (text : TrText)
  | setQuotaText (text : TrText)
  | setRecentIcon (icon : QIcon)
  | recentMenuClear
  | recentMenuAddText (text : TrText)
  | recentMenuAddRecentAction
  | rebuildRecentMenus (body : List GuiEffect)
  | singleShotDisplayIdle (msec : Int)
  | debug (message : String) (value : QString)
  | openUrl (url : QUrl)

/-- Is the effect a call of `slotRebuildRecentMenus()`? -/
def GuiEffect.isRebuild : GuiEffect → Bool
  | .rebuildRecentMenus _ => true
  | _ => false

/-- Is the effect `_actionRecent->setIcon(QIcon())`, which removes the warning icon? -/
def GuiEffect.isClearIcon : GuiEffect → Bool
  | .setRecentIcon QIcon.null => true
  | _ => false

/-- Is the effect the timer that schedules `slotDisplayIdle()`? -/
def GuiEffect.isIdleTimer : GuiEffect → Bool
  | .singleShotDisplayIdle _ => true
  | _ => false

/-- The slot `ownCloudGui::slotRebuildRecentMenus()`: the menu is cleared, then holds
"No items synced recently" or one entry per recently changed item (at most the
five that `recentChangedItems(5)` returns), then the action `_actionRecent`. -/
def ownCloudGui.slotRebuildRecentMenus (env : GuiEnv) : List GuiEffect :=
  let progressInfoList := env.recentChangedItems 5
  [GuiEffect.recentMenuClear] ++
  (if progressInfoList.length = 0 then
    [GuiEffect.recentMenuAddText (tr "No items synced recently")]
  else
    progressInfoList.map (fun info =>
      let kindStr := env.asResultString info.kind
      let timeStr := env.timeToString info.timestamp "hh:mm"
      GuiEffect.recentMenuAddText
        ((((tr "%1 (%2, %3)").arg (TextArg.str info.current_file)).arg
          (TextArg.str kindStr)).arg (TextArg.str timeStr)))) ++
  [GuiEffect.recentMenuAddRecentAction]

/-- The slot `ownCloudGui::slotUpdateProgress(folder, progress)`. -/
def ownCloudGui.slotUpdateProgress (env : GuiEnv) (_folder : QString)
    (progress : Progress.Info) : List GuiEffect :=
  let curAmount := env.octetsToString progress.overall_current_bytes
  let totalAmount := env.octetsToString progress.overall_transmission_size
  [GuiEffect.setStatusText
    (((((tr "Syncing %1 of %2 (%3 of %4) ").arg (TextArg.num progress.current_file_no)).arg
      (TextArg.num progress.overall_file_count)).arg (TextArg.str curAmount)).arg
      (TextArg.str totalAmount))] ++
  (if progress.kind = Progress.Kind.StartSync then
    [GuiEffect.setRecentIcon QIcon.null]
  else []) ++
  (if progress.kind = Progress.Kind.EndDownload ∨ progress.kind = Progress.Kind.EndUpload ∨
      progress.kind = Progress.Kind.EndDelete then
    [GuiEffect.rebuildRecentMenus (ownCloudGui.slotRebuildRecentMenus env)]
  else []) ++
  (if progress.kind = Progress.Kind.EndSync then
    [GuiEffect.rebuildRecentMenus (ownCloudGui.slotRebuildRecentMenus env),
     GuiEffect.singleShotDisplayIdle 2000]
  else [])

/-- The slot `ownCloudGui::slotDisplayIdle()`. -/
def ownCloudGui.slotDisplayIdle : List GuiEffect :=
  [GuiEffect.setStatusText (tr "Up to date")]

/-- The slot `ownCloudGui::slotRefreshQuotaDisplay(total, used)`. -/
def ownCloudGui.slotRefreshQuotaDisplay (env : GuiEnv) (total used : Int) :
    Except Fault (List GuiEffect) :=
  if total = 0 then
    Except.ok [GuiEffect.setQuotaText (tr "Quota n/a")]
  else do
    let ratio ← DoubleExpr.divide (DoubleExpr.ofInt used) total
    let percent := DoubleExpr.mul ratio (DoubleExpr.ofInt 100)
    let percentFormatted := env.compactFormatDouble percent 1
    let totalFormatted := env.octetsToString total
    pure [GuiEffect.setQuotaText
      (((tr "%1% of %2 in use").arg (TextArg.str percentFormatted)).arg
        (TextArg.str totalFormatted))]

/-- The slot `ownCloudGui::slotFolderOpenAction(alias)` (the argument is `folderAlias`
here).  The folder is looked up, its path is written to the debug output, and only
then is the pointer tested. -/
def ownCloudGui.slotFolderOpenAction (env : GuiEnv) (folderAlias : QString) :
    Except Fault (List GuiEffect) := do
  let f := env.folder folderAlias
  let log ←
    if env.debugOutput then do
      let logged ← deref f
      pure [GuiEffect.debug "opening local url " logged.path]
    else pure []
  if f.isSome then
    let folder ← deref f
    let url := (QUrl.ctor folder.path).setScheme "file"
    let url ←
      if env.win32 then do
        let filePath := (← deref f).path
        if QString.startsWith filePath [Char.ofNat 92, Char.ofNat 92] ||
            QString.startsWith filePath ['/', '/'] then
          pure (url.setUrl (toNativeSeparators filePath))
        else
          pure (QUrl.fromLocalFile filePath)
      else pure url
    pure (log ++ [GuiEffect.openUrl url])
  else
    pure log

/-- An environment in which `FolderMan` has no folder for any alias, in a build for
Linux with debug output; the helpers of `Utility` and `Progress` return empty
strings, and nothing changed recently. -/
def sampleGuiEnv : GuiEnv :=
  { octetsToString := fun _ => []
    compactFormatDouble := fun _ _ => []
    asResultString := fun _ => []
    timeToString := fun _ _ => []
    recentChangedItems := fun _ => []
    folder := fun _ => none
    win32 := false
    debugOutput := true }

/-- An entry of the menu `_recentActionsMenu`: an action made from a text, or the
action `_actionRecent`. -/
inductive RecentMenuEntry where
  | text (text : TrText)
  | actionRecent
deriving DecidableEq, Repr

mutual
/-- What an effect does to the entries of `_recentActionsMenu`: `clear()` removes them
all, `addAction` appends one, a call of `slotRebuildRecentMenus()` does what its body
does, and the other effects leave the menu alone. -/
def GuiEffect.onRecentMenu : GuiEffect → List RecentMenuEntry → List RecentMenuEntry
  | .recentMenuClear, _ => []
  | .recentMenuAddText text, menu => menu ++ [RecentMenuEntry.text text]
  | .recentMenuAddRecentAction, menu => menu ++ [RecentMenuEntry.actionRecent]
  | .rebuildRecentMenus body, menu => recentMenuAfter body menu
  | .setStatusText _, menu => menu
  | .setQuotaText _, menu => menu
  | .setRecentIcon _, menu => menu
  | .singleShotDisplayIdle _, menu => menu
  | .debug _ _, menu => menu
  | .openUrl _, menu => menu
/-- The entries of `_recentActionsMenu` after the effects of a body, in program
order. -/
def recentMenuAfter : List GuiEffect → List RecentMenuEntry → List RecentMenuEntry
  | [], menu => menu
  | e :: es, menu => recentMenuAfter es (GuiEffect.onRecentMenu e menu)
end

/-! ## The SSL button (`src/mirall/sslbutton.cpp`)

The button is a value holding what `updateAccountInfo` sets: visibility, icon,
tool tip and menu.  The certificates trusted by the system
(`QSslSocket::systemCaCertificates()`) and the helpers of `Utility` are read from an
`SslEnv`. -/

/-- A certificate (`QSslCertificate`), by what `sslbutton.cpp` reads from it: the
subject and issuer information (string lists), the digests in hexadecimal, the
serial number, the two dates as `QDate::toString()` shows them, and the
alternative subject names. -/
structure QSslCertificate where
  subjectCommonName : List QString
  subjectOrganizationalUnitName : List QString
  subjectOrganization : List QString
  subjectCountryName : List QString
  subjectStateOrProvinceName : List QString
  issuerCommonName : List QString
  issuerOrganization : List QString
  digestMd5Hex : QString
  digestSha1Hex : QString
  serialNumber : QString
  effectiveDate : QString
  expiryDate : QString
  alternateSubjectNames : List QString
deriving DecidableEq, Repr

/-- What `sslbutton.cpp` reads from outside these sources:
`QSslSocket::systemCaCertificates()`, `Utility::formatFingerprint` and
`Utility::escape`. -/
structure SslEnv where
  systemCaCertificates : List QSslCertificate
  formatFingerprint : QString → QString
  escape : QString → QString

/-- The member `QStringList::join(separator)`. -/
def QStringList.join (l : List QString) (separator : QString) : QString :=
  separator.intercalate l

/-- The member `QString::replace(before, after)` for a one-character `before`. -/
def QString.replaceChar (s : QString) (before : Char) (after : QString) : QString :=
  s.flatMap (fun c => if c = before then after else [c])

/-- A piece written to the stream of the details text: a Latin-1 literal, a
translated literal, or a row of a table (a key, a value, and whether the value is
set in `<tt>`). -/
inductive DetailPiece where
  | latin1 (text : String)
  | translated (text : String)
  | row (key : String) (value : QString) (tt : Bool)
deriving DecidableEq, Repr

/-- The static function `addCertDetailsField(key, value, tt)`: nothing for an empty
value, one table row otherwise. -/
def addCertDetailsField (key : String) (value : QString) (tt : Bool) : List DetailPiece :=
  if value.isEmpty then [] else [DetailPiece.row key value tt]

/-- The menu built by `SslButton::buildCertMenu`: the text of its menu action, made
of an indentation and a label, and the details shown by its only action. -/
structure CertMenu where
  indent : QString
  label : TrText
  details : List DetailPiece
deriving DecidableEq, Repr

/-- The static function `QString::fromUtf8(str, size)` on the bytes of a `QByteArray`
that holds ASCII text, one character per byte: all of them for a negative `size`,
the first `size` otherwise; the byte that follows the last one is the terminating
zero of the array. -/
def QString.fromUtf8 (bytes : QString) (size : Int) : QString :=
  if size < 0 then bytes else (bytes ++ [Char.ofNat 0]).take size.toNat

/-- The member `SslButton::buildCertMenu(parent, cert, userApproved, pos)`.  The serial
number is `QString::fromUtf8(cert.serialNumber(), true)`: the second argument is the
size, and `true` converts to 1, so `serial` is the first byte only. -/
def SslButton.buildCertMenu (env : SslEnv) (cert : QSslCertificate)
    (userApproved : List QSslCertificate) (pos : Int) : CertMenu :=
  let cn := QStringList.join cert.subjectCommonName [';']
  let ou := QStringList.join cert.subjectOrganizationalUnitName [';']
  let org := QStringList.join cert.subjectOrganization [';']
  let country := QStringList.join cert.subjectCountryName [';']
  let state := QStringList.join cert.subjectStateOrProvinceName [';']
  let issuer := QStringList.join cert.issuerCommonName [';']
  let md5 := env.formatFingerprint cert.digestMd5Hex
  let sha1 := env.formatFingerprint cert.digestSha1Hex
  let serial := QString.fromUtf8 cert.serialNumber 1
  let effectiveDate := cert.effectiveDate
  let expiryDate := cert.expiryDate
  let sna := QStringList.join cert.alternateSubjectNames [' ']
  let details :=
    [DetailPiece.latin1 "<html><body>",
     DetailPiece.translated "<h3>Certificate Details</h3>",
     DetailPiece.latin1 "<table>"] ++
    addCertDetailsField "Common Name (CN):" (env.escape cn) false ++
    addCertDetailsField "Subject Alternative Names:"
      (QString.replaceChar (env.escape sna) ' ' ['<', 'b', 'r', '/', '>']) false ++
    addCertDetailsField "Organization (O):" (env.escape org) false ++
    addCertDetailsField "Organizational Unit (OU):" (env.escape ou) false ++
    addCertDetailsField "State/Province:" (env.escape state) false ++
    addCertDetailsField "Country:" (env.escape country) false ++
    addCertDetailsField "Serial:" (env.escape serial) true ++
    [DetailPiece.latin1 "</table>",
     DetailPiece.translated "<h3>Issuer</h3>",
     DetailPiece.latin1 "<table>"] ++
    addCertDetailsField "Issuer:" (env.escape issuer) false ++
    addCertDetailsField "Issued on:" (env.escape effectiveDate) false ++
    addCertDetailsField "Expires on:" (env.escape expiryDate) false ++
    [DetailPiece.latin1 "</table>",
     DetailPiece.translated "<h3>Fingerprints</h3>",
     DetailPiece.latin1 "<table>"] ++
    addCertDetailsField "MD 5:" (env.escape md5) true ++
    addCertDetailsField "SHA-1:" (env.escape sha1) true ++
    [DetailPiece.latin1 "</table>"] ++
    (if userApproved.contains cert then
      [DetailPiece.translated "<p><b>Note:</b> This certificate was manually approved</p>"]
    else []) ++
    [DetailPiece.latin1 "</body></html>"]
  let indent : QString :=
    if pos > 0 then List.replicate pos.toNat ' ' ++ [Char.ofNat 0x21AA, ' '] else []
  let label :=
    if env.systemCaCertificates.contains cert then
      (tr "%1 (in Root CA store)").arg (TextArg.str cn)
    else if cn = issuer then
      ((tr "%1 (self-signed)").arg (TextArg.str cn)).arg (TextArg.str issuer)
    else
      (tr "%1").arg (TextArg.str cn)
  { indent := indent, label := label, details := details }

/-- The member `QList::last()`: the last element, or the fault on an empty list. -/
def lastOf {α : Type} (l : List α) : Except Fault α :=
  match l.getLast? with
  | some x => Except.ok x
  | none => Except.error Fault.lastOfEmptyList

/-- The loop of `updateAccountInfo` that looks for the trust anchor:
`foreach (rootCA, systemCaCertificates()) if (rootCA.issuerInfo(CommonName) ==
chain.last().issuerInfo(CommonName) && rootCA.issuerInfo(Organization) ==
chain.last().issuerInfo(Organization)) then chain << rootCA; break;`.  Every turn
evaluates `chain.last()`. -/
def SslButton.findTrustAnchor (chain : List QSslCertificate) :
    List QSslCertificate → Except Fault (List QSslCertificate)
  | [] => Except.ok chain
  | rootCA :: rest => do
    let last ← lastOf chain
    if rootCA.issuerCommonName = last.issuerCommonName then do
      let last ← lastOf chain
      if rootCA.issuerOrganization = last.issuerOrganization then
        pure (chain ++ [rootCA])
      else SslButton.findTrustAnchor chain rest
    else SslButton.findTrustAnchor chain rest

/-- An entry of the menu of the button: the disabled action made of a text, or the
sub-menu of a certificate. -/
inductive MenuEntry where
  | disabledAction (text : TrText)
  | certMenu (menu : CertMenu)
deriving DecidableEq, Repr

/-- The loop of `updateAccountInfo` that fills the menu: `it.toBack(); int i = 0;
while (it.hasPrevious()) menu->addMenu(buildCertMenu(menu, it.previous(),
approvedCerts, i)); i++`, on the certificates still to visit, last one first. -/
def SslButton.addCertMenus (env : SslEnv) (approvedCerts : List QSslCertificate) :
    List QSslCertificate → Int → List MenuEntry
  | [], _ => []
  | cert :: previous, i =>
    MenuEntry.certMenu (SslButton.buildCertMenu env cert approvedCerts i) ::
      SslButton.addCertMenus env approvedCerts previous (i + 1)

/-- The enumerators of `Account::State` that `sslbutton.cpp` names.  The enumeration
is declared in `account.h`, outside these sources; `other` stands for each of its
remaining enumerators. -/
inductive AccountState where
  | Connected
  | other (enumerator : Nat)
deriving DecidableEq, Repr

/-- A `QSslCipher`, by what `updateAccountInfo` reads from it. -/
structure QSslCipher where
  usedBits : Int
  name : QString
deriving DecidableEq, Repr

/-- An `Account` (declared in `account.h`, outside these sources), by what
`updateAccountInfo` reads from it: `state()`, `url().scheme()`,
`sslConfiguration().sessionCipher()`, `sslConfiguration().peerCertificateChain()`
and `approvedCerts()`. -/
structure Account where
  state : AccountState
  urlScheme : QString
  sessionCipher : QSslCipher
  peerCertificateChain : List QSslCertificate
  approvedCerts : List QSslCertificate
deriving DecidableEq, Repr

/-- What `updateAccountInfo` sets in the button: `setVisible`, `setIcon`,
`setToolTip`, `setMenu` (no menu after `setMenu(0)`). -/
structure SslButton where
  visible : Bool
  icon : QIcon
  toolTip : TrText
  menu : Option (List MenuEntry)
deriving DecidableEq, Repr

/-- The member `SslButton::updateAccountInfo(account)`; `account` may be null. -/
def SslButton.updateAccountInfo (env : SslEnv) (button : SslButton)
    (account : Option Account) : Except Fault SslButton :=
  match account with
  | none => Except.ok { button with visible := false }
  | some a =>
    if a.state ≠ AccountState.Connected then
      Except.ok { button with visible := false }
    else
      let shown := { button with visible := true }
      if a.urlScheme = ['h', 't', 't', 'p', 's'] then do
        let cipher := a.sessionCipher
        let labelled :=
          { shown with
            icon := QIcon.resource ":/mirall/resources/lock-https.png"
            toolTip := ((tr "This connection is encrypted using %1 bit %2.\n").arg
              (TextArg.num cipher.usedBits)).arg (TextArg.str cipher.name) }
        let header := MenuEntry.disabledAction (tr "Certificate information:")
        let chain ← SslButton.findTrustAnchor a.peerCertificateChain env.systemCaCertificates
        pure { labelled with
          menu := some (header :: SslButton.addCertMenus env a.approvedCerts chain.reverse 0) }
      else
        Except.ok
          { shown with
            icon := QIcon.resource ":/mirall/resources/lock-http.png"
            toolTip := tr "This connection is NOT secure as it is not encrypted.\n"
            menu := none }

/-- A certificate of the authority `Root`, self-issued. -/
def sampleRootCertificate : QSslCertificate :=
  { subjectCommonName := [['R', 'o', 'o', 't']]
    subjectOrganizationalUnitName := []
    subjectOrganization := [['C', 'A']]
    subjectCountryName := []
    subjectStateOrProvinceName := []
    issuerCommonName := [['R', 'o', 'o', 't']]
    issuerOrganization := [['C', 'A']]
    digestMd5Hex := ['0', '1']
    digestSha1Hex := ['0', '2']
    serialNumber := ['1']
    effectiveDate := []
    expiryDate := []
    alternateSubjectNames := [] }

/-- A system that trusts `sampleRootCertificate`; the helpers of `Utility` return
their argument. -/
def sampleSslEnv : SslEnv :=
  { systemCaCertificates := [sampleRootCertificate]
    formatFingerprint := fun s => s
    escape := fun s => s }

/-- A button as `updateAccountInfo` finds it: hidden, without icon, tool tip or menu. -/
def sampleButton : SslButton :=
  { visible := false, icon := QIcon.null, toolTip := tr "", menu := none }

/-- A connected `https` account whose configuration reports no peer certificate. -/
def sampleAccountWithoutChain : Account :=
  { state := AccountState.Connected
    urlScheme := ['h', 't', 't', 'p', 's']
    sessionCipher := { usedBits := 256, name := ['A', 'E', 'S'] }
    peerCertificateChain := []
    approvedCerts := [] }

/-! ## Lemmas on `abort()` -/

mutual
/-- Forwarding `abort()` through a job of the header leaves the job as it was. -/
theorem Job.abort_job_unchanged : ∀ j : Job, (Job.abort j).1 = j
  | .ignore j => by simp [Job.abort, PropagateIgnoreJob.abort, PropagatorJob.abort]
  | .directory d => by simp [Job.abort, PropagateDirectory.abort_directory_unchanged d]
/-- A directory is left as it was by its `abort()`. -/
theorem PropagateDirectory.abort_directory_unchanged :
    ∀ d : PropagateDirectoryOf Job, (PropagateDirectory.abort d).1 = d
  | ⟨b, f, s, i, c, r, e⟩ => by
    simp [PropagateDirectory.abort, abortFirstJob_fst f, abortSubJobs_fst s]
/-- The self-job is left as it was. -/
theorem abortFirstJob_fst : ∀ f : Option Job, (abortFirstJob f).1 = f
  | none => by simp [abortFirstJob]
  | some j => by simp [abortFirstJob, Job.abort_job_unchanged j]
/-- The children are left as they were. -/
theorem abortSubJobs_fst : ∀ s : List Job, (abortSubJobs s).1 = s
  | [] => by simp [abortSubJobs]
  | j :: js => by simp [abortSubJobs, Job.abort_job_unchanged j, abortSubJobs_fst js]
end

theorem abortFirstJob_snd (f : Option Job) :
    (abortFirstJob f).2 = f.toList.map (fun j => Effect.abortCall j.self (Job.abort j).2) := by
  cases f <;> simp [abortFirstJob]

theorem abortSubJobs_snd (s : List Job) :
    (abortSubJobs s).2 = s.map (fun j => Effect.abortCall j.self (Job.abort j).2) := by
  induction s with
  | nil => simp [abortSubJobs]
  | cons j js ih => simp [abortSubJobs, ih]

theorem PropagateDirectory.abort_directory_effects (d : PropagateDirectory) :
    (PropagateDirectory.abort d).2 =
      (d._firstJob.toList ++ d._subJobs).map
        (fun j => Effect.abortCall j.self (Job.abort j).2) := by
  obtain ⟨b, f, s, i, c, r, e⟩ := d
  simp [PropagateDirectory.abort, abortFirstJob_snd, abortSubJobs_snd]

theorem abortCallees_map (js : List Job) :
    abortCallees (js.map (fun j => Effect.abortCall j.self (Job.abort j).2)) =
      js.map Job.self := by
  induction js with
  | nil => simp [abortCallees]
  | cons j js ih =>
    simp only [abortCallees] at ih
    simp [abortCallees, Effect.abortCallee?, ih]

theorem allForwardOnly_map (js : List Job)
    (h : ∀ j ∈ js, allForwardOnly (Job.abort j).2 = true) :
    allForwardOnly (js.map (fun j => Effect.abortCall j.self (Job.abort j).2)) = true := by
  induction js with
  | nil => simp [allForwardOnly]
  | cons j js ih =>
    simp only [List.map_cons, allForwardOnly, Effect.forwardsOnly, Bool.and_eq_true]
    exact ⟨h j (List.mem_cons_self _ _), ih (fun k hk => h k (List.mem_cons_of_mem _ hk))⟩

mutual
/-- The body of `abort()` of any job of the header only forwards `abort()`. -/
theorem Job.abort_forwardOnly : ∀ j : Job, allForwardOnly (Job.abort j).2 = true
  | .ignore j => by simp [Job.abort, PropagateIgnoreJob.abort, PropagatorJob.abort, allForwardOnly]
  | .directory ⟨b, f, s, i, c, r, e⟩ => by
    have hf := firstJob_forwardOnly f
    have hs := subJobs_forwardOnly s
    simp only [Job.abort, PropagateDirectory.abort_directory_effects]
    apply allForwardOnly_map
    intro j hj
    simp only [List.mem_append, Option.mem_toList, Option.mem_def] at hj
    rcases hj with hj | hj
    · exact hf j hj
    · exact hs j hj
theorem firstJob_forwardOnly :
    ∀ f : Option Job, ∀ j, f = some j → allForwardOnly (Job.abort j).2 = true
  | none => by simp
  | some k => by
    intro j hj
    cases hj
    exact Job.abort_forwardOnly k
theorem subJobs_forwardOnly :
    ∀ s : List Job, ∀ j ∈ s, allForwardOnly (Job.abort j).2 = true
  | [] => by simp
  | k :: ks => by
    intro j hj
    rcases List.mem_cons.mp hj with h | h
    · subst h; exact Job.abort_forwardOnly j
    · exact subJobs_forwardOnly ks j h
end

theorem finishedCount_append (a b : List Effect) :
    finishedCount (a ++ b) = finishedCount a + finishedCount b := by
  simp [finishedCount]

theorem OwncloudPropagator.abort_engine_effects (p : OwncloudPropagator) :
    (p.abort).2 =
      p._rootJob.toList.map
          (fun r => Effect.abortCall r.base.self (PropagateDirectory.abort r).2)
        ++ [Effect.emitFinished] := by
  unfold OwncloudPropagator.abort
  cases h : p._rootJob <;> simp [h]

theorem OwncloudPropagator.abort_flag (p : OwncloudPropagator) :
    (p.abort).1._abortRequested = 1 := by
  unfold OwncloudPropagator.abort
  cases h : p._rootJob <;> simp [h]

theorem OwncloudPropagator.abort_finishedCount (p : OwncloudPropagator) :
    finishedCount (p.abort).2 = 1 := by
  rw [OwncloudPropagator.abort_engine_effects, finishedCount_append]
  cases p._rootJob <;> simp [finishedCount, Effect.isEmitFinished]

theorem abortCallees_append (a b : List Effect) :
    abortCallees (a ++ b) = abortCallees a ++ abortCallees b := by
  simp [abortCallees]

theorem OwncloudPropagator.abort_engine_state (p : OwncloudPropagator) :
    (p.abort).1 = { p with _abortRequested := 1 } := by
  obtain ⟨root, a, b, c, d, e, f, g, h, i, j⟩ := p
  cases root with
  | none => rfl
  | some root =>
    simp [OwncloudPropagator.abort, PropagateDirectory.abort_directory_unchanged root]

theorem OwncloudPropagator.abort_callees (p : OwncloudPropagator) :
    abortCallees (p.abort).2 =
      (match p._rootJob with
        | some root => [root.base.self]
        | none => []) := by
  rw [OwncloudPropagator.abort_engine_effects]
  cases p._rootJob <;> simp [abortCallees, Effect.abortCallee?]

/-- The engine after one more call of `abort()` is the engine after the first. -/
theorem OwncloudPropagator.abortTimes_state (p : OwncloudPropagator) (n : Nat) :
    (OwncloudPropagator.abortTimes (n + 1) p).1 = (p.abort).1 := by
  induction n generalizing p with
  | zero => rfl
  | succ n ih =>
    have h1 : (OwncloudPropagator.abortTimes (n + 1 + 1) p).1 =
        (OwncloudPropagator.abortTimes (n + 1) (p.abort).1).1 := rfl
    rw [h1, ih, OwncloudPropagator.abort_engine_state, OwncloudPropagator.abort_engine_state]

theorem OwncloudPropagator.abortTimes_rootJob (n : Nat) (p : OwncloudPropagator) :
    (OwncloudPropagator.abortTimes n p).1._rootJob = p._rootJob := by
  cases n with
  | zero => rfl
  | succ n => rw [OwncloudPropagator.abortTimes_state, OwncloudPropagator.abort_engine_state]

theorem OwncloudPropagator.abortTimes_callees (n : Nat) (p : OwncloudPropagator) :
    abortCallees (OwncloudPropagator.abortTimes n p).2 =
      (match p._rootJob with
        | some root => List.replicate n root.base.self
        | none => []) := by
  induction n generalizing p with
  | zero => cases p._rootJob <;> rfl
  | succ n ih =>
    have h1 : (OwncloudPropagator.abortTimes (n + 1) p).2 =
        (p.abort).2 ++ (OwncloudPropagator.abortTimes n (p.abort).1).2 := rfl
    have h2 : (p.abort).1._rootJob = p._rootJob := by
      rw [OwncloudPropagator.abort_engine_state]
    rw [h1, abortCallees_append, ih, h2, OwncloudPropagator.abort_callees]
    cases p._rootJob <;> simp [List.replicate_succ]

/-! ## The engine's `abort()` -/

/-- C1: in every engine state, `OwncloudPropagator::abort()` sets the abort-requested
flag (to 1, that is true); the calls it makes are one `abort()` on the root job
when there is a root job and none otherwise; and the last thing it does, exactly
once, is to emit the overall `finished()`.  Nothing in the state is consulted, so
this holds whether or not any sub-job has finished. -/
theorem OwncloudPropagator.abort_sets_flag_forwards_and_finishes (p : OwncloudPropagator) :
    (p.abort).1._abortRequested = 1 ∧
    (p.abort).1.abortRequested = true ∧
    (p.abort).2 =
      p._rootJob.toList.map
          (fun r => Effect.abortCall r.base.self (PropagateDirectory.abort r).2)
        ++ [Effect.emitFinished] ∧
    abortCallees (p.abort).2 = p._rootJob.toList.map (fun r => r.base.self) ∧
    (abortCallees (p.abort).2).length = (if p._rootJob.isSome then 1 else 0) ∧
    finishedCount (p.abort).2 = 1 ∧
    (p.abort).2.getLast? = some Effect.emitFinished := by
  refine ⟨p.abort_flag, ?_, p.abort_engine_effects, ?_, ?_, p.abort_finishedCount, ?_⟩
  · simp [OwncloudPropagator.abortRequested, p.abort_flag]
  · rw [p.abort_engine_effects]
    cases p._rootJob <;> simp [abortCallees, Effect.abortCallee?]
  · rw [p.abort_engine_effects]
    cases p._rootJob <;> simp [abortCallees, Effect.abortCallee?]
  · rw [p.abort_engine_effects]
    simp

/-- C2, as stated, fails: on an engine whose run has not finished (the root job
with an un-started child is still there), two calls of `abort()` emit the overall
`finished()` twice, not once. -/
theorem OwncloudPropagator.abort_twice_finishes_twice :
    finishedCount (OwncloudPropagator.abortTimes 2 sampleEngine).2 = 2 ∧
    ¬ (finishedCount (OwncloudPropagator.abortTimes 2 sampleEngine).2 = 1) := by
  constructor
  · rfl
  · decide

/-- C2, amended: from any engine state, `n` calls of `abort()` emit the overall
`finished()` `n` times in total, and the call after them emits it once more: every
call emits it exactly once.  The repeated calls are safe in that they leave the
engine as the first call left it, with the flag set and the root job as it was;
each of them forwards `abort()` to the root job again. -/
theorem OwncloudPropagator.abortTimes_finishedCount (p : OwncloudPropagator) (n : Nat) :
    finishedCount (OwncloudPropagator.abortTimes n p).2 = n ∧
    finishedCount ((OwncloudPropagator.abortTimes n p).1.abort).2 = 1 ∧
    (OwncloudPropagator.abortTimes (n + 1) p).1 = (p.abort).1 ∧
    (OwncloudPropagator.abortTimes (n + 1) p).1._abortRequested = 1 ∧
    (OwncloudPropagator.abortTimes n p).1._rootJob = p._rootJob ∧
    abortCallees (OwncloudPropagator.abortTimes n p).2 =
      (match p._rootJob with
        | some root => List.replicate n root.base.self
        | none => []) := by
  have hcount : ∀ (n : Nat) (q : OwncloudPropagator),
      finishedCount (OwncloudPropagator.abortTimes n q).2 = n := by
    intro n
    induction n with
    | zero => intro q; simp [OwncloudPropagator.abortTimes, finishedCount]
    | succ n ih =>
      intro q
      simp only [OwncloudPropagator.abortTimes, finishedCount_append, ih,
        OwncloudPropagator.abort_finishedCount]
      omega
  have hstate := OwncloudPropagator.abortTimes_state p n
  refine ⟨hcount n p, OwncloudPropagator.abort_finishedCount _, hstate, ?_, ?_,
    OwncloudPropagator.abortTimes_callees n p⟩
  · rw [hstate]
    exact p.abort_flag
  · exact OwncloudPropagator.abortTimes_rootJob n p

/-! ## `abort()` on jobs -/

/-- The members of a directory as constructed and filled. -/
theorem PropagateDirectory.build_fields (self propagator : Nat) (item : SyncFileItem)
    (firstJob : Option Job) (children : List Job) :
    (PropagateDirectory.build self propagator item firstJob children)._subJobs = children ∧
    (PropagateDirectory.build self propagator item firstJob children)._firstJob = firstJob ∧
    (PropagateDirectory.build self propagator item firstJob children)._current = -1 ∧
    (PropagateDirectory.build self propagator item firstJob children)._runningNow = 0 ∧
    (PropagateDirectory.build self propagator item firstJob children)._hasError =
      Status.NoStatus := by
  have key : ∀ (cs : List Job) (d : PropagateDirectory),
      (cs.foldl PropagateDirectory.append d)._subJobs = d._subJobs ++ cs ∧
      (cs.foldl PropagateDirectory.append d)._firstJob = d._firstJob ∧
      (cs.foldl PropagateDirectory.append d)._current = d._current ∧
      (cs.foldl PropagateDirectory.append d)._runningNow = d._runningNow ∧
      (cs.foldl PropagateDirectory.append d)._hasError = d._hasError := by
    intro cs
    induction cs with
    | nil => intro d; simp
    | cons c cs ih =>
      intro d
      obtain ⟨h1, h2, h3, h4, h5⟩ := ih (d.append c)
      simp only [List.foldl_cons]
      refine ⟨?_, ?_, ?_, ?_, ?_⟩
      · rw [h1]; simp [PropagateDirectory.append]
      · rw [h2]; rfl
      · rw [h3]; rfl
      · rw [h4]; rfl
      · rw [h5]; rfl
  obtain ⟨h1, h2, h3, h4, h5⟩ := key children
    { PropagateDirectory.ctor self propagator item with _firstJob := firstJob }
  unfold PropagateDirectory.build
  refine ⟨?_, ?_, ?_, ?_, ?_⟩
  · rw [h1]; simp [PropagateDirectory.ctor]
  · rw [h2]
  · rw [h3]; rfl
  · rw [h4]; rfl
  · rw [h5]; rfl

/-- C3, as stated, fails: an un-started `PropagateIgnoreJob` that receives `abort()`,
directly or through `PropagateDirectory::abort()` of its parent, is unchanged, and a
later `start()` performs its action: it calls `done(FileIgnored)`, which finishes the
job with `FileIgnored`. -/
theorem PropagateIgnoreJob.start_after_abort_still_ignores :
    (PropagateIgnoreJob.abort sampleIgnoreJob).1 = sampleIgnoreJob ∧
    (PropagateDirectory.abort sampleDirectory).1._subJobs = [Job.ignore sampleIgnoreJob] ∧
    (PropagateIgnoreJob.start PropagateItemJob.done
        (PropagateIgnoreJob.abort sampleIgnoreJob).1).2 =
      [Effect.doneCall 11 Status.FileIgnored []
        [Effect.emitCompleted 11 sampleItem, Effect.emitJobFinished 11 Status.FileIgnored]] ∧
    ¬ ((PropagateIgnoreJob.start PropagateItemJob.done
        (PropagateIgnoreJob.abort sampleIgnoreJob).1).2.any
          (Effect.isDoneWith Status.FileIgnored) = false) := by
  refine ⟨rfl, rfl, rfl, ?_⟩
  decide

/-- C3, amended: `abort()` changes nothing in a job that has not been started.  The
default `PropagatorJob::abort()`, which a `PropagateIgnoreJob` inherits, returns the
job as it was and does nothing; `abort()` on any job of the header leaves the whole
job (and so every child it forwards to) as it was, and its body only forwards
`abort()`; a `PropagateIgnoreJob` started after `abort()` does what it does without
it: one call `done(FileIgnored)`. -/
theorem Job.abort_changes_nothing (done : DoneBody) (j : PropagateIgnoreJob) (t : Job) :
    PropagateIgnoreJob.abort j = (j, []) ∧
    (Job.abort t).1 = t ∧
    allForwardOnly (Job.abort t).2 = true ∧
    PropagateIgnoreJob.start done (PropagateIgnoreJob.abort j).1 =
      PropagateIgnoreJob.start done j ∧
    (PropagateIgnoreJob.start done (PropagateIgnoreJob.abort j).1).2 =
      [Effect.doneCall j.base.self Status.FileIgnored [] (done j Status.FileIgnored []).2] := by
  have h : PropagateIgnoreJob.abort j = (j, []) := by
    simp [PropagateIgnoreJob.abort, PropagatorJob.abort]
  refine ⟨h, Job.abort_job_unchanged t, Job.abort_forwardOnly t, ?_, ?_⟩
  · rw [h]
  · rw [h]
    rfl

/-- C4: for every directory job, whatever its children and whatever their state,
`PropagateDirectory::abort()` makes exactly these calls, in this order: `abort()` on
the self-job when there is one, then `abort()` on each child of `_subJobs` from
first to last, which for a directory filled by `append` is from first appended to
last; it makes one call per job and does nothing else.  It leaves `_current`,
`_runningNow`, `_hasError` and the list of children (indeed the whole directory)
as they were. -/
theorem PropagateDirectory.abort_forwards_to_all (d : PropagateDirectory)
    (self propagator : Nat) (item : SyncFileItem) (firstJob : Option Job)
    (children : List Job) :
    (PropagateDirectory.abort d).2 =
      (d._firstJob.toList ++ d._subJobs).map
        (fun j => Effect.abortCall j.self (Job.abort j).2) ∧
    abortCallees (PropagateDirectory.abort d).2 =
      d._firstJob.toList.map Job.self ++ d._subJobs.map Job.self ∧
    abortCallees (PropagateDirectory.abort
        (PropagateDirectory.build self propagator item firstJob children)).2 =
      firstJob.toList.map Job.self ++ children.map Job.self ∧
    (PropagateDirectory.abort d).2.length =
      (if d._firstJob.isSome then 1 else 0) + d._subJobs.length ∧
    (PropagateDirectory.abort d).1._current = d._current ∧
    (PropagateDirectory.abort d).1._runningNow = d._runningNow ∧
    (PropagateDirectory.abort d).1._hasError = d._hasError ∧
    (PropagateDirectory.abort d).1._subJobs = d._subJobs ∧
    (PropagateDirectory.abort d).1 = d := by
  have h1 := PropagateDirectory.abort_directory_unchanged d
  obtain ⟨hb1, hb2, _⟩ := PropagateDirectory.build_fields self propagator item firstJob children
  refine ⟨PropagateDirectory.abort_directory_effects d, ?_, ?_, ?_, ?_, ?_, ?_, ?_, h1⟩
  · rw [PropagateDirectory.abort_directory_effects d, abortCallees_map, List.map_append]
  · rw [PropagateDirectory.abort_directory_effects, abortCallees_map, List.map_append,
      hb1, hb2]
  · rw [PropagateDirectory.abort_directory_effects d]
    cases d._firstJob <;> simp
    omega
  all_goals rw [h1]

/-! ## `emitReady()` -/

theorem PropagatorJob.emitReady_readySent (j : PropagatorJob) :
    (j.emitReady).1._readySent = true := by
  unfold PropagatorJob.emitReady
  cases j._readySent <;> simp

theorem PropagatorJob.emitReadyTimes_of_sent (n : Nat) (j : PropagatorJob)
    (h : j._readySent = true) :
    PropagatorJob.emitReadyTimes n j = (j, []) := by
  induction n with
  | zero => rfl
  | succ n ih =>
    have h1 : j.emitReady = (j, []) := by
      obtain ⟨s, p, r⟩ := j
      simp only at h
      subst h
      rfl
    simp [PropagatorJob.emitReadyTimes, h1, ih]

theorem PropagatorJob.emitReady_readyCount_le (j : PropagatorJob) :
    readyCount (j.emitReady).2 ≤ 1 := by
  unfold PropagatorJob.emitReady
  cases j._readySent <;> simp [readyCount, Effect.isEmitReady]

/-- C5: for every job and every number of calls of `emitReady()` on it, `ready()` is
emitted at most once.  On a job as constructed, the first call emits `ready()` and
any number of calls emits it exactly once in total; in any state the first call
sets `_readySent`, and every later call emits nothing and leaves `_readySent`
true. -/
theorem PropagatorJob.emitReady_at_most_once (j : PropagatorJob) (self propagator n : Nat) :
    readyCount (PropagatorJob.emitReadyTimes n j).2 ≤ 1 ∧
    ((PropagatorJob.ctor self propagator).emitReady).2 = [Effect.emitReady self] ∧
    (PropagatorJob.emitReadyTimes (n + 1) (PropagatorJob.ctor self propagator)).2 =
      [Effect.emitReady self] ∧
    (j.emitReady).1._readySent = true ∧
    (PropagatorJob.emitReadyTimes n (j.emitReady).1).2 = [] ∧
    (PropagatorJob.emitReadyTimes n (j.emitReady).1).1._readySent = true := by
  have hs := j.emitReady_readySent
  have ht := PropagatorJob.emitReadyTimes_of_sent n _ hs
  refine ⟨?_, rfl, ?_, hs, ?_, ?_⟩
  · cases n with
    | zero => simp [PropagatorJob.emitReadyTimes, readyCount]
    | succ m =>
      have hm := PropagatorJob.emitReadyTimes_of_sent m _ hs
      simp only [PropagatorJob.emitReadyTimes, hm, List.append_nil]
      exact j.emitReady_readyCount_le
  · have hc := PropagatorJob.emitReadyTimes_of_sent n
      ((PropagatorJob.ctor self propagator).emitReady).1
      (PropagatorJob.emitReady_readySent _)
    simp only [PropagatorJob.emitReadyTimes, hc, List.append_nil]
    rfl
  · rw [ht]
  · rw [ht]
    exact hs

/-! ## The abort-requested flag -/

theorem OwncloudPropagator.step_abortRequested (p : OwncloudPropagator) (op : EngineOp) :
    (p.step op).abortRequested = (p.abortRequested || op.isAbort) := by
  cases op with
  | abort =>
    simp [OwncloudPropagator.step, OwncloudPropagator.abortRequested, EngineOp.isAbort,
      p.abort_flag]
  | _ =>
    simp [OwncloudPropagator.step, OwncloudPropagator.abortRequested, EngineOp.isAbort,
      OwncloudPropagator.start]

theorem OwncloudPropagator.run_abortRequested (p : OwncloudPropagator) (ops : List EngineOp) :
    (p.run ops).abortRequested = (p.abortRequested || ops.any EngineOp.isAbort) := by
  induction ops generalizing p with
  | nil => simp [OwncloudPropagator.run]
  | cons op ops ih =>
    have h := ih (p.step op)
    simp only [OwncloudPropagator.run, List.foldl_cons] at h ⊢
    rw [h, p.step_abortRequested, List.any_cons, Bool.or_assoc]

theorem OwncloudPropagator.step_flag_kept (p : OwncloudPropagator) (op : EngineOp)
    (h : p._abortRequested = 1) : (p.step op)._abortRequested = 1 := by
  cases op with
  | abort => exact p.abort_flag
  | _ => simpa [OwncloudPropagator.step, OwncloudPropagator.start] using h

theorem OwncloudPropagator.run_flag_kept (p : OwncloudPropagator) (ops : List EngineOp)
    (h : p._abortRequested = 1) : (p.run ops)._abortRequested = 1 := by
  induction ops generalizing p with
  | nil => simpa [OwncloudPropagator.run] using h
  | cons op ops ih =>
    have h1 := ih (p.step op) (p.step_flag_kept op h)
    simpa only [OwncloudPropagator.run, List.foldl_cons] using h1

/-- C6: the abort-requested flag is one-way.  A freshly constructed engine has the
flag clear; each operation leaves the flag set when it was set, and sets it exactly
when the operation is `abort()`; so after any operations, then `abort()`, then any
further operations, the flag is set. -/
theorem OwncloudPropagator.abortRequested_permanent
    (session progressDb neonThread : Nat) (localDir remoteDir remoteFolder : QString)
    (p : OwncloudPropagator) (op : EngineOp) (before after : List EngineOp) :
    (OwncloudPropagator.ctor session localDir remoteDir remoteFolder progressDb
        neonThread).abortRequested = false ∧
    (p.step op).abortRequested = (p.abortRequested || op.isAbort) ∧
    (p.run after).abortRequested = (p.abortRequested || after.any EngineOp.isAbort) ∧
    (((OwncloudPropagator.ctor session localDir remoteDir remoteFolder progressDb
        neonThread).run before).abort.1.run after).abortRequested = true ∧
    (((OwncloudPropagator.ctor session localDir remoteDir remoteFolder progressDb
        neonThread).run before).abort.1.run after)._abortRequested = 1 := by
  refine ⟨rfl, p.step_abortRequested op, p.run_abortRequested after, ?_, ?_⟩
  · rw [OwncloudPropagator.run_abortRequested]
    simp [OwncloudPropagator.abortRequested, OwncloudPropagator.abort_flag]
  · exact OwncloudPropagator.run_flag_kept _ after (OwncloudPropagator.abort_flag _)

/-! ## The constructor of the engine -/

theorem withTrailingSlash_endsWith (dir : QString) :
    QString.endsWith (withTrailingSlash dir) '/' = true := by
  unfold withTrailingSlash
  by_cases h : QString.endsWith dir '/' = true
  · rw [if_pos h]
    exact h
  · rw [if_neg h]
    simp [QString.endsWith]

/-- C7: for all strings passed to the constructor, the empty string included, each
of the stored `_localDir`, `_remoteDir` and `_remoteFolder` ends with `/`; it is
the argument itself when the argument ends with `/`, and the argument followed
by one `/` otherwise. -/
theorem OwncloudPropagator.ctor_dirs_end_with_slash
    (session progressDb neonThread : Nat) (localDir remoteDir remoteFolder : QString) :
    QString.endsWith (OwncloudPropagator.ctor session localDir remoteDir remoteFolder
      progressDb neonThread)._localDir '/' = true ∧
    QString.endsWith (OwncloudPropagator.ctor session localDir remoteDir remoteFolder
      progressDb neonThread)._remoteDir '/' = true ∧
    QString.endsWith (OwncloudPropagator.ctor session localDir remoteDir remoteFolder
      progressDb neonThread)._remoteFolder '/' = true ∧
    (OwncloudPropagator.ctor session localDir remoteDir remoteFolder
      progressDb neonThread)._localDir =
      (if localDir.getLast? = some '/' then localDir else localDir ++ ['/']) ∧
    (OwncloudPropagator.ctor session localDir remoteDir remoteFolder
      progressDb neonThread)._remoteDir =
      (if remoteDir.getLast? = some '/' then remoteDir else remoteDir ++ ['/']) ∧
    (OwncloudPropagator.ctor session localDir remoteDir remoteFolder
      progressDb neonThread)._remoteFolder =
      (if remoteFolder.getLast? = some '/' then remoteFolder else remoteFolder ++ ['/']) ∧
    (OwncloudPropagator.ctor session [] [] [] progressDb neonThread)._localDir = ['/'] := by
  refine ⟨withTrailingSlash_endsWith _, withTrailingSlash_endsWith _,
    withTrailingSlash_endsWith _, ?_, ?_, ?_, rfl⟩ <;>
  simp [OwncloudPropagator.ctor, withTrailingSlash, QString.endsWith]

/-! ## Lemmas on lists of job statuses -/

theorem count_set_running (l : List JobStatus) (i : Nat)
    (h : l.get? i = some JobStatus.NotStarted) :
    (l.set i JobStatus.Running).count JobStatus.Running = l.count JobStatus.Running + 1 := by
  induction l generalizing i with
  | nil => simp at h
  | cons a l ih =>
    cases i with
    | zero =>
      simp only [List.get?_cons_zero, Option.some.injEq] at h
      subst h
      simp [List.count_cons]
    | succ i =>
      simp only [List.get?_cons_succ] at h
      simp only [List.set_cons_succ, List.count_cons, ih i h]
      omega

theorem count_set_finished (l : List JobStatus) (i : Nat) (s : Status)
    (h : l.get? i = some JobStatus.Running) :
    (l.set i (JobStatus.Finished s)).count JobStatus.Running + 1 =
      l.count JobStatus.Running := by
  induction l generalizing i with
  | nil => simp at h
  | cons a l ih =>
    cases i with
    | zero =>
      simp only [List.get?_cons_zero, Option.some.injEq] at h
      subst h
      simp [List.count_cons]
    | succ i =>
      simp only [List.get?_cons_succ] at h
      have := ih i h
      simp only [List.set_cons_succ, List.count_cons]
      omega

theorem kinds_set_running (l : List JobStatus) (i : Nat)
    (h : l.get? i = some JobStatus.NotStarted) :
    (l.set i JobStatus.Running).filterMap JobStatus.kind? = l.filterMap JobStatus.kind? := by
  induction l generalizing i with
  | nil => simp at h
  | cons a l ih =>
    cases i with
    | zero =>
      simp only [List.get?_cons_zero, Option.some.injEq] at h
      subst h
      simp [List.filterMap_cons, JobStatus.kind?]
    | succ i =>
      simp only [List.get?_cons_succ] at h
      simp only [List.set_cons_succ, List.filterMap_cons, ih i h]

theorem mem_kinds_set_finished (l : List JobStatus) (i : Nat) (s x : Status)
    (h : l.get? i = some JobStatus.Running) :
    x ∈ (l.set i (JobStatus.Finished s)).filterMap JobStatus.kind? ↔
      x = s ∨ x ∈ l.filterMap JobStatus.kind? := by
  induction l generalizing i with
  | nil => simp at h
  | cons a l ih =>
    cases i with
    | zero =>
      simp only [List.get?_cons_zero, Option.some.injEq] at h
      subst h
      simp [List.filterMap_cons, JobStatus.kind?]
    | succ i =>
      simp only [List.get?_cons_succ] at h
      have := ih i h
      cases a <;> simp [List.filterMap_cons, JobStatus.kind?, this]
      tauto

theorem count_running_eq_zero (l : List JobStatus)
    (h : ∀ i, i < l.length →
      l.get? i = some JobStatus.NotStarted ∨ l.get? i = some JobStatus.Aborted) :
    l.count JobStatus.Running = 0 := by
  rw [List.count_eq_zero]
  intro hm
  obtain ⟨i, hi, he⟩ := List.getElem_of_mem hm
  have := h i hi
  rw [List.get?_eq_getElem?, List.getElem?_eq_getElem hi, he] at this
  simp at this

theorem not_running_of_all_finished (l : List JobStatus) (i : Nat)
    (h : l.all JobStatus.isFinished = true) : l.get? i ≠ some JobStatus.Running := by
  intro hi
  rw [List.all_eq_true] at h
  have hm : JobStatus.Running ∈ l := List.get?_mem hi
  have := h _ hm
  simp [JobStatus.isFinished] at this

theorem JobStatus.abort_eq_running (s : JobStatus) :
    s.abort = JobStatus.Running ↔ s = JobStatus.Running := by
  cases s <;> simp [JobStatus.abort]

theorem JobStatus.abort_kind (s : JobStatus) : s.abort.kind? = s.kind? := by
  cases s <;> rfl

theorem JobStatus.isFinished_abort (s : JobStatus) (h : s.isFinished = true) :
    s.abort.isFinished = true := by
  cases s <;> simp_all [JobStatus.abort, JobStatus.isFinished]

theorem count_map_abort (l : List JobStatus) :
    (l.map JobStatus.abort).count JobStatus.Running = l.count JobStatus.Running := by
  induction l with
  | nil => rfl
  | cons a l ih => cases a <;> simp [List.count_cons, JobStatus.abort, ih]

theorem kinds_map_abort (l : List JobStatus) :
    (l.map JobStatus.abort).filterMap JobStatus.kind? = l.filterMap JobStatus.kind? := by
  induction l with
  | nil => rfl
  | cons a l ih =>
    cases a <;> simp [List.filterMap_cons, JobStatus.abort, JobStatus.kind?, ih]

theorem all_finished_map_abort (l : List JobStatus) (h : l.all JobStatus.isFinished = true) :
    (l.map JobStatus.abort).all JobStatus.isFinished = true := by
  rw [List.all_eq_true] at h ⊢
  intro x hx
  obtain ⟨a, ha, rfl⟩ := List.mem_map.mp hx
  exact JobStatus.isFinished_abort a (h a ha)

/-! ## The invariant of a run -/

theorem mergeSeverity_severity (a s : Status) :
    (mergeSeverity a s).severity = max a.severity s.severity := by
  unfold mergeSeverity
  split <;> omega

theorem mergeSeverity_eq (a s : Status) : mergeSeverity a s = a ∨ mergeSeverity a s = s := by
  unfold mergeSeverity
  split <;> simp

theorem mergeSeverity_kind (a s : Status) (h : a = Status.NoStatus ∨ 1 ≤ a.severity) :
    mergeSeverity a s = Status.NoStatus ∨ 1 ≤ (mergeSeverity a s).severity := by
  unfold mergeSeverity
  split
  · right; omega
  · exact h

theorem DirectoryRun.runningCount_le_succ (r : DirectoryRun) :
    r.runningCount ≤ r.runningChildren + 1 := by
  unfold DirectoryRun.runningCount
  split <;> omega

theorem DirectoryRun.invariant_init (cap self propagator : Nat) (item : SyncFileItem)
    (firstJob : Option Job) (children : List Job) :
    DirectoryRun.Invariant cap
      (DirectoryRun.init (PropagateDirectory.build self propagator item firstJob children)) := by
  obtain ⟨h1, h2, h3, h4, h5⟩ :=
    PropagateDirectory.build_fields self propagator item firstJob children
  have hcount : (List.replicate children.length JobStatus.NotStarted).count
      JobStatus.Running = 0 := by
    rw [List.count_eq_zero]
    simp
  have hkinds : (List.replicate children.length JobStatus.NotStarted).filterMap
      JobStatus.kind? = [] := by
    rw [List.filterMap_eq_nil_iff]
    intro a ha
    rw [List.eq_of_mem_replicate ha]
    rfl
  have hget : ∀ i : Nat, i < children.length →
      (List.replicate children.length JobStatus.NotStarted).get? i =
        some JobStatus.NotStarted := by
    intro i hi
    simp [List.getElem?_replicate, hi]
  refine
    { running_eq := ?_, length_eq := ?_, current_ge := ?_, after_current := ?_,
      unaborted := ?_, not_started := ?_, self_running := ?_, children_le := ?_,
      starts_lt := ?_, starts_length := ?_, severity_le := ?_, severity_mem := ?_,
      aggregate_kind := ?_, fatal_aborts := ?_, finished := ?_ }
  · simp [DirectoryRun.init, DirectoryRun.runningCount, DirectoryRun.runningChildren, h1, h4,
      hcount]
  · simp [DirectoryRun.init, h1]
  · simp [DirectoryRun.init, h3]
  · intro i _ hi
    simp only [DirectoryRun.init, h1, List.length_replicate] at hi ⊢
    exact Or.inl (hget i hi)
  · intro _ i _ hi
    simp only [DirectoryRun.init, h1, List.length_replicate] at hi ⊢
    exact hget i hi
  · intro _
    simp [DirectoryRun.init, h3]
  · simp [DirectoryRun.init]
  · simp [DirectoryRun.init, DirectoryRun.runningChildren, h1, hcount]
  · simp [DirectoryRun.init]
  · simp [DirectoryRun.init, h3]
  · simp [DirectoryRun.init, DirectoryRun.outcomes, h1, hkinds, JobStatus.kind?]
  · left
    simp [DirectoryRun.init, h5]
  · left
    simp [DirectoryRun.init, h5]
  · simp [DirectoryRun.init, DirectoryRun.outcomes, h1, hkinds, JobStatus.kind?]
  · simp [DirectoryRun.init]

theorem DirectoryRun.Invariant.status_running {cap : Nat} {r : DirectoryRun}
    (h : DirectoryRun.Invariant cap r)
    (hr : r.selfStatus = JobStatus.Running ∨
      ∃ i, r.childStatus.get? i = some JobStatus.Running) :
    r.status = JobStatus.Running := by
  have hidle : r.status = JobStatus.NotStarted ∨ r.status = JobStatus.Aborted → False := by
    intro hst
    obtain ⟨h1, h2⟩ := h.not_started hst
    rcases hr with hr | ⟨i, hi⟩
    · rw [hr] at h1
      rcases h1 with h1 | h1 <;> cases h1
    · have hlt : i < r.childStatus.length := by
        rw [List.get?_eq_getElem?] at hi
        exact (List.getElem?_eq_some_iff.mp hi).1
      have := h.after_current i (by omega) hlt
      rw [hi] at this
      rcases this with h3 | h3 <;> cases h3
  cases hst : r.status with
  | Running => rfl
  | NotStarted => exact (hidle (Or.inl hst)).elim
  | Aborted => exact (hidle (Or.inr hst)).elim
  | Finished k =>
    exfalso
    obtain ⟨_, h2⟩ := h.finished k hst
    simp only [DirectoryRun.allFinished, Bool.and_eq_true, Bool.or_eq_true] at h2
    rcases hr with hr | ⟨i, hi⟩
    · have h4 := h.self_running hr
      rcases h2.1 with h5 | h5
      · rw [Option.isNone_iff_eq_none] at h5
        rw [h5] at h4
        cases h4
      · rw [hr] at h5
        cases h5
    · exact not_running_of_all_finished _ i h2.2 hi

theorem DirectoryRun.Invariant.count_zero_of_not_started {cap : Nat} {r : DirectoryRun}
    (h : DirectoryRun.Invariant cap r) (hs : r.status = JobStatus.NotStarted) :
    r.runningChildren = 0 := by
  obtain ⟨_, h2⟩ := h.not_started (Or.inl hs)
  exact count_running_eq_zero r.childStatus (fun i hi => h.after_current i (by omega) hi)

theorem DirectoryRun.Invariant.startChild {cap : Nat} {r : DirectoryRun}
    (h : DirectoryRun.Invariant cap r) (hs : r.status = JobStatus.Running)
    (hflag : r.abortRequested = false) (hrun : r.runningChildren < cap)
    (hnext : r.dir._current + 1 < (r.dir._subJobs.length : Int)) (next : Job) :
    DirectoryRun.Invariant cap (r.startChild (r.dir._current + 1).toNat next) := by
  have hge := h.current_ge
  have hidx : (((r.dir._current + 1).toNat : Nat) : Int) = r.dir._current + 1 := by omega
  have hlen : (r.dir._current + 1).toNat < r.childStatus.length := by
    rw [h.length_eq]; omega
  have hNS := h.unaborted hflag (r.dir._current + 1).toNat (by omega) hlen
  have hcnt := count_set_running _ _ hNS
  have hreq := h.running_eq
  have hslen := h.starts_length
  simp only [DirectoryRun.runningCount, DirectoryRun.runningChildren] at hreq hrun
  refine
    { running_eq := ?_, length_eq := ?_, current_ge := ?_, after_current := ?_,
      unaborted := ?_, not_started := ?_, self_running := h.self_running, children_le := ?_,
      starts_lt := ?_, starts_length := ?_, severity_le := ?_, severity_mem := ?_,
      aggregate_kind := h.aggregate_kind, fatal_aborts := ?_, finished := ?_ }
  · simp only [DirectoryRun.startChild, PropagateDirectory.startJob,
      DirectoryRun.runningCount, DirectoryRun.runningChildren, hcnt]
    omega
  · simp only [DirectoryRun.startChild, PropagateDirectory.startJob, List.length_set]
    exact h.length_eq
  · simp only [DirectoryRun.startChild]
    omega
  · intro i hi hil
    simp only [DirectoryRun.startChild, List.length_set] at hi hil ⊢
    rw [List.get?_eq_getElem?, List.getElem?_set_ne (by omega), ← List.get?_eq_getElem?]
    exact h.after_current i (by omega) hil
  · intro _ i hi hil
    simp only [DirectoryRun.startChild, List.length_set] at hi hil ⊢
    rw [List.get?_eq_getElem?, List.getElem?_set_ne (by omega), ← List.get?_eq_getElem?]
    exact h.unaborted hflag i (by omega) hil
  · intro hn
    simp only [DirectoryRun.startChild] at hn
    rw [hs] at hn
    rcases hn with hn | hn <;> cases hn
  · simp only [DirectoryRun.startChild, DirectoryRun.runningChildren, hcnt]
    omega
  · intro p hp
    simp only [DirectoryRun.startChild, List.mem_append, List.mem_singleton] at hp
    rcases hp with hp | hp
    · exact h.starts_lt p hp
    · rw [hp]
      exact hrun
  · simp only [DirectoryRun.startChild, List.length_append, List.length_singleton]
    push_cast
    omega
  · intro s hm
    have := h.severity_le s
    simp only [DirectoryRun.startChild, PropagateDirectory.startJob, DirectoryRun.outcomes,
      List.filterMap_cons, kinds_set_running _ _ hNS] at hm this ⊢
    exact this hm
  · have := h.severity_mem
    simp only [DirectoryRun.startChild, PropagateDirectory.startJob, DirectoryRun.outcomes,
      List.filterMap_cons, kinds_set_running _ _ hNS] at this ⊢
    exact this
  · intro hm
    have := h.fatal_aborts
    simp only [DirectoryRun.startChild, PropagateDirectory.startJob, DirectoryRun.outcomes,
      List.filterMap_cons, kinds_set_running _ _ hNS] at hm this ⊢
    exact this hm
  · intro k hk
    simp only [DirectoryRun.startChild] at hk
    rw [hs] at hk
    cases hk

theorem DirectoryRun.startChild_status (r : DirectoryRun) (index : Nat) (next : Job) :
    (r.startChild index next).status = r.status := rfl

theorem DirectoryRun.Invariant.scheduleLoop {cap : Nat} (turns : Nat) {r : DirectoryRun}
    (h : DirectoryRun.Invariant cap r) (hs : r.status = JobStatus.Running) :
    DirectoryRun.Invariant cap (DirectoryRun.scheduleLoop cap turns r) ∧
      (DirectoryRun.scheduleLoop cap turns r).status = JobStatus.Running := by
  induction turns generalizing r with
  | zero => exact ⟨h, hs⟩
  | succ turns ih =>
    unfold DirectoryRun.scheduleLoop
    split
    · rename_i hg
      split
      · rename_i next _
        exact ih (h.startChild hs hg.1 hg.2.1 hg.2.2.1 next)
          ((r.startChild_status _ next).trans hs)
      · exact ⟨h, hs⟩
    · exact ⟨h, hs⟩

theorem DirectoryRun.Invariant.finishIfDone {cap : Nat} {r : DirectoryRun}
    (h : DirectoryRun.Invariant cap r) : DirectoryRun.Invariant cap r.finishIfDone := by
  unfold DirectoryRun.finishIfDone
  split
  · rename_i hg
    refine
      { running_eq := h.running_eq, length_eq := h.length_eq, current_ge := h.current_ge,
        after_current := h.after_current, unaborted := h.unaborted, not_started := ?_,
        self_running := h.self_running, children_le := h.children_le,
        starts_lt := h.starts_lt, starts_length := h.starts_length,
        severity_le := h.severity_le, severity_mem := h.severity_mem,
        aggregate_kind := h.aggregate_kind, fatal_aborts := h.fatal_aborts, finished := ?_ }
    · intro hn
      rcases hn with hn | hn <;> cases hn
    · intro k hk
      simp only [JobStatus.Finished.injEq] at hk
      exact ⟨hk.symm, hg.2⟩
  · exact h

theorem DirectoryRun.Invariant.slotSubJobReady {cap : Nat} {r : DirectoryRun}
    (h : DirectoryRun.Invariant cap r) (hs : r.status = JobStatus.Running) :
    DirectoryRun.Invariant cap (r.slotSubJobReady cap) :=
  (h.scheduleLoop r.dir._subJobs.length hs).1.finishIfDone

theorem DirectoryRun.Invariant.abort {cap : Nat} {r : DirectoryRun}
    (h : DirectoryRun.Invariant cap r) : DirectoryRun.Invariant cap r.abort := by
  unfold DirectoryRun.abort
  apply DirectoryRun.Invariant.finishIfDone
  have hdir := PropagateDirectory.abort_directory_unchanged r.dir
  have hget : ∀ i : Nat, r.dir._current < (i : Int) → i < r.childStatus.length →
      (r.childStatus.map JobStatus.abort).get? i = some JobStatus.Aborted := by
    intro i hi hil
    rw [List.get?_eq_getElem?, List.getElem?_map, ← List.get?_eq_getElem?]
    rcases h.after_current i hi hil with h1 | h1 <;> rw [h1] <;> rfl
  refine
    { running_eq := ?_, length_eq := ?_, current_ge := ?_, after_current := ?_,
      unaborted := ?_, not_started := ?_, self_running := ?_, children_le := ?_,
      starts_lt := h.starts_lt, starts_length := ?_, severity_le := ?_, severity_mem := ?_,
      aggregate_kind := ?_, fatal_aborts := (fun _ => rfl), finished := ?_ }
  · have := h.running_eq
    simp only [hdir, DirectoryRun.runningCount, DirectoryRun.runningChildren, count_map_abort,
      JobStatus.abort_eq_running] at this ⊢
    exact this
  · simp only [hdir, List.length_map]
    exact h.length_eq
  · simp only [hdir]
    exact h.current_ge
  · intro i hi hil
    simp only [hdir, List.length_map] at hi hil ⊢
    exact Or.inr (hget i hi hil)
  · intro hf
    cases hf
  · intro hn
    simp only [hdir] at hn ⊢
    have hold : r.status = JobStatus.NotStarted ∨ r.status = JobStatus.Aborted := by
      cases hst : r.status <;> simp [hst, JobStatus.abort] at hn ⊢
    obtain ⟨h1, h2⟩ := h.not_started hold
    refine ⟨?_, h2⟩
    rcases h1 with h1 | h1 <;> rw [h1] <;> simp [JobStatus.abort]
  · intro hn
    simp only [hdir, JobStatus.abort_eq_running] at hn ⊢
    exact h.self_running hn
  · simp only [DirectoryRun.runningChildren, count_map_abort]
    exact h.children_le
  · simp only [hdir]
    exact h.starts_length
  · intro s hm
    have := h.severity_le s
    simp only [hdir, DirectoryRun.outcomes, List.filterMap_cons, kinds_map_abort,
      JobStatus.abort_kind] at hm this ⊢
    exact this hm
  · have := h.severity_mem
    simp only [hdir, DirectoryRun.outcomes, List.filterMap_cons, kinds_map_abort,
      JobStatus.abort_kind] at this ⊢
    exact this
  · simp only [hdir]
    exact h.aggregate_kind
  · intro k hk
    have hold : r.status = JobStatus.Finished k := by
      cases hst : r.status <;> simp [hst, JobStatus.abort] at hk ⊢
      exact hk
    obtain ⟨h1, h2⟩ := h.finished k hold
    refine ⟨?_, ?_⟩
    · simp only [DirectoryRun.reportStatus, hdir] at h1 ⊢
      exact h1
    · simp only [DirectoryRun.allFinished, Bool.and_eq_true, Bool.or_eq_true, hdir] at h2 ⊢
      refine ⟨?_, all_finished_map_abort _ h2.2⟩
      rcases h2.1 with h3 | h3
      · exact Or.inl h3
      · exact Or.inr (JobStatus.isFinished_abort _ h3)

theorem DirectoryRun.Invariant.start {cap : Nat} {r : DirectoryRun}
    (h : DirectoryRun.Invariant cap r) (hs : r.status = JobStatus.NotStarted) :
    DirectoryRun.Invariant cap (r.start cap) := by
  obtain ⟨h1, h2⟩ := h.not_started (Or.inl hs)
  have hz := h.count_zero_of_not_started hs
  have hself : r.selfStatus ≠ JobStatus.Running := by
    rcases h1 with h1 | h1 <;> rw [h1] <;> simp
  have hkind : r.selfStatus.kind? = none := by
    rcases h1 with h1 | h1 <;> rw [h1] <;> rfl
  unfold DirectoryRun.start
  split
  · rename_i first hf
    have hreq := h.running_eq
    simp only [DirectoryRun.runningCount, hself, if_false] at hreq
    have hout : DirectoryRun.outcomes
        { r with
          status := JobStatus.Running
          dir := (r.dir.startJob first).1
          selfStatus := JobStatus.Running } = r.outcomes := by
      simp only [DirectoryRun.outcomes, List.filterMap_cons, hkind]
      rfl
    refine
      { running_eq := ?_, length_eq := h.length_eq, current_ge := h.current_ge,
        after_current := h.after_current, unaborted := h.unaborted, not_started := ?_,
        self_running := ?_, children_le := h.children_le, starts_lt := h.starts_lt,
        starts_length := h.starts_length, severity_le := ?_, severity_mem := ?_,
        aggregate_kind := h.aggregate_kind, fatal_aborts := ?_, finished := ?_ }
    · simp only [PropagateDirectory.startJob, DirectoryRun.runningCount,
        DirectoryRun.runningChildren] at hreq ⊢
      simp
      omega
    · intro hn
      rcases hn with hn | hn <;> cases hn
    · intro _
      simp [PropagateDirectory.startJob, hf]
    · rw [hout]
      exact h.severity_le
    · rw [hout]
      exact h.severity_mem
    · rw [hout]
      exact h.fatal_aborts
    · intro k hk
      cases hk
  · refine DirectoryRun.Invariant.slotSubJobReady ?_ rfl
    exact
      { running_eq := h.running_eq, length_eq := h.length_eq, current_ge := h.current_ge,
        after_current := h.after_current, unaborted := h.unaborted,
        not_started := (fun hn => by rcases hn with hn | hn <;> cases hn),
        self_running := h.self_running, children_le := h.children_le,
        starts_lt := h.starts_lt, starts_length := h.starts_length,
        severity_le := h.severity_le, severity_mem := h.severity_mem,
        aggregate_kind := h.aggregate_kind, fatal_aborts := h.fatal_aborts,
        finished := (fun k hk => by cases hk) }

/-- The state in which `slotSubJobFinished` finds the directory when its self-job has
finished, with the running count decremented and the severity merged, satisfies
the invariant, for every value of the flag that is set if it was set or if the
outcome is `FatalError`. -/
theorem DirectoryRun.Invariant.selfRecorded {cap : Nat} {r : DirectoryRun}
    (h : DirectoryRun.Invariant cap r) (hr : r.selfStatus = JobStatus.Running)
    (status : Status) (flag : Bool) (hfatal : status = Status.FatalError → flag = true)
    (hkeep : r.abortRequested = true → flag = true) :
    DirectoryRun.Invariant cap
      { r with
        selfStatus := JobStatus.Finished status
        abortRequested := flag
        dir := { r.dir with
          _runningNow := r.dir._runningNow - 1
          _hasError := mergeSeverity r.dir._hasError status } } := by
  have hs := h.status_running (Or.inl hr)
  have hreq := h.running_eq
  simp only [DirectoryRun.runningCount, hr] at hreq
  have hold : flag = false → r.abortRequested = false := by
    intro hf
    cases ha : r.abortRequested with
    | false => rfl
    | true => rw [hkeep ha] at hf; cases hf
  refine
    { running_eq := ?_, length_eq := h.length_eq, current_ge := h.current_ge,
      after_current := h.after_current, unaborted := (fun hf => h.unaborted (hold hf)),
      not_started := ?_, self_running := ?_, children_le := h.children_le,
      starts_lt := h.starts_lt, starts_length := h.starts_length, severity_le := ?_,
      severity_mem := ?_, aggregate_kind := mergeSeverity_kind _ _ h.aggregate_kind,
      fatal_aborts := ?_, finished := ?_ }
  · simp only [DirectoryRun.runningCount, DirectoryRun.runningChildren] at hreq ⊢
    simp at hreq ⊢
    omega
  · intro hn
    simp only at hn
    rw [hs] at hn
    rcases hn with hn | hn <;> cases hn
  · intro hn
    cases hn
  · intro s hm
    have hle := h.severity_le s
    simp only [DirectoryRun.outcomes, List.filterMap_cons, hr, JobStatus.kind?,
      List.mem_cons, mergeSeverity_severity] at hm hle ⊢
    rcases hm with hm | hm
    · rw [hm]; omega
    · have := hle hm; omega
  · have hmem := h.severity_mem
    simp only [DirectoryRun.outcomes, List.filterMap_cons, hr, JobStatus.kind?,
      List.mem_cons] at hmem ⊢
    rcases mergeSeverity_eq r.dir._hasError status with he | he
    · rw [he]
      rcases hmem with hmem | hmem
      · exact Or.inl hmem
      · exact Or.inr (Or.inr hmem)
    · rw [he]
      exact Or.inr (Or.inl rfl)
  · intro hm
    have hfa := h.fatal_aborts
    simp only [DirectoryRun.outcomes, List.filterMap_cons, hr, JobStatus.kind?,
      List.mem_cons] at hm hfa ⊢
    rcases hm with hm | hm
    · exact hfatal hm.symm
    · exact hkeep (hfa hm)
  · intro k hk
    simp only at hk
    rw [hs] at hk
    cases hk

theorem DirectoryRun.Invariant.selfFinished {cap : Nat} {r : DirectoryRun}
    (h : DirectoryRun.Invariant cap r) (hr : r.selfStatus = JobStatus.Running)
    (status : Status) :
    DirectoryRun.Invariant cap
      (DirectoryRun.slotSubJobFinished cap
        { r with selfStatus := JobStatus.Finished status } status) := by
  have hs := h.status_running (Or.inl hr)
  unfold DirectoryRun.slotSubJobFinished
  split
  · exact (h.selfRecorded hr status true (fun _ => rfl) (fun _ => rfl)).abort
  · rename_i hne
    refine DirectoryRun.Invariant.slotSubJobReady ?_ hs
    exact h.selfRecorded hr status r.abortRequested (fun he => absurd he hne) (fun ha => ha)

/-- The state in which `slotSubJobFinished` finds the directory when the child at
`index` has finished, with the running count decremented and the severity merged,
satisfies the invariant, for every value of the flag that is set if it was set or
if the outcome is `FatalError`. -/
theorem DirectoryRun.Invariant.childRecorded {cap : Nat} {r : DirectoryRun}
    (h : DirectoryRun.Invariant cap r) (index : Nat)
    (hr : r.childStatus.get? index = some JobStatus.Running)
    (status : Status) (flag : Bool) (hfatal : status = Status.FatalError → flag = true)
    (hkeep : r.abortRequested = true → flag = true) :
    DirectoryRun.Invariant cap
      { r with
        childStatus := r.childStatus.set index (JobStatus.Finished status)
        abortRequested := flag
        dir := { r.dir with
          _runningNow := r.dir._runningNow - 1
          _hasError := mergeSeverity r.dir._hasError status } } := by
  have hs := h.status_running (Or.inr ⟨index, hr⟩)
  have hreq := h.running_eq
  have hcnt := count_set_finished _ _ status hr
  simp only [DirectoryRun.runningCount, DirectoryRun.runningChildren] at hreq
  have hold : flag = false → r.abortRequested = false := by
    intro hf
    cases ha : r.abortRequested with
    | false => rfl
    | true => rw [hkeep ha] at hf; cases hf
  have hne : ∀ i : Nat, r.dir._current < (i : Int) → i < r.childStatus.length →
      index ≠ i := by
    intro i hi hil he
    have := h.after_current i hi hil
    rw [← he, hr] at this
    rcases this with h3 | h3 <;> cases h3
  refine
    { running_eq := ?_, length_eq := ?_, current_ge := h.current_ge,
      after_current := ?_, unaborted := ?_, not_started := ?_,
      self_running := h.self_running, children_le := ?_,
      starts_lt := h.starts_lt, starts_length := h.starts_length, severity_le := ?_,
      severity_mem := ?_, aggregate_kind := mergeSeverity_kind _ _ h.aggregate_kind,
      fatal_aborts := ?_, finished := ?_ }
  · simp only [DirectoryRun.runningCount, DirectoryRun.runningChildren]
    omega
  · simp only [List.length_set]
    exact h.length_eq
  · intro i hi hil
    simp only [List.length_set] at hi hil ⊢
    rw [List.get?_eq_getElem?, List.getElem?_set_ne (hne i hi hil), ← List.get?_eq_getElem?]
    exact h.after_current i hi hil
  · intro hf i hi hil
    simp only [List.length_set] at hi hil ⊢
    rw [List.get?_eq_getElem?, List.getElem?_set_ne (hne i hi hil), ← List.get?_eq_getElem?]
    exact h.unaborted (hold hf) i hi hil
  · intro hn
    simp only at hn
    rw [hs] at hn
    rcases hn with hn | hn <;> cases hn
  · have := h.children_le
    simp only [DirectoryRun.runningChildren] at this ⊢
    omega
  · intro s hm
    have hle := h.severity_le s
    simp only [DirectoryRun.outcomes, List.filterMap_cons, mergeSeverity_severity] at hm hle ⊢
    cases hk : r.selfStatus.kind? with
    | none =>
      simp only [hk, mem_kinds_set_finished _ _ _ _ hr] at hm hle
      rcases hm with hm | hm
      · rw [hm]; omega
      · have := hle hm; omega
    | some k =>
      simp only [hk, List.mem_cons, mem_kinds_set_finished _ _ _ _ hr] at hm hle
      rcases hm with hm | hm | hm
      · have := hle (Or.inl hm); omega
      · rw [hm]; omega
      · have := hle (Or.inr hm); omega
  · have hmem := h.severity_mem
    simp only [DirectoryRun.outcomes, List.filterMap_cons] at hmem ⊢
    rcases mergeSeverity_eq r.dir._hasError status with he | he
    · rw [he]
      rcases hmem with hmem | hmem
      · exact Or.inl hmem
      · right
        cases hk : r.selfStatus.kind? with
        | none =>
          simp only [hk, mem_kinds_set_finished _ _ _ _ hr] at hmem ⊢
          exact Or.inr hmem
        | some k =>
          simp only [hk, List.mem_cons, mem_kinds_set_finished _ _ _ _ hr] at hmem ⊢
          rcases hmem with hmem | hmem
          · exact Or.inl hmem
          · exact Or.inr (Or.inr hmem)
    · rw [he]
      right
      cases hk : r.selfStatus.kind? with
      | none =>
        simp only [mem_kinds_set_finished _ _ _ _ hr]
        exact Or.inl trivial
      | some k =>
        simp only [List.mem_cons, mem_kinds_set_finished _ _ _ _ hr]
        exact Or.inr (Or.inl trivial)
  · intro hm
    have hfa := h.fatal_aborts
    simp only [DirectoryRun.outcomes, List.filterMap_cons] at hm hfa ⊢
    cases hk : r.selfStatus.kind? with
    | none =>
      simp only [hk, mem_kinds_set_finished _ _ _ _ hr] at hm hfa
      rcases hm with hm | hm
      · exact hfatal hm.symm
      · exact hkeep (hfa hm)
    | some k =>
      simp only [hk, List.mem_cons, mem_kinds_set_finished _ _ _ _ hr] at hm hfa
      rcases hm with hm | hm | hm
      · exact hkeep (hfa (Or.inl hm))
      · exact hfatal hm.symm
      · exact hkeep (hfa (Or.inr hm))
  · intro k hk
    simp only at hk
    rw [hs] at hk
    cases hk

theorem DirectoryRun.Invariant.childFinished {cap : Nat} {r : DirectoryRun}
    (h : DirectoryRun.Invariant cap r) (index : Nat)
    (hr : r.childStatus.get? index = some JobStatus.Running) (status : Status) :
    DirectoryRun.Invariant cap
      (DirectoryRun.slotSubJobFinished cap
        { r with childStatus := r.childStatus.set index (JobStatus.Finished status) }
        status) := by
  have hs := h.status_running (Or.inr ⟨index, hr⟩)
  unfold DirectoryRun.slotSubJobFinished
  split
  · exact (h.childRecorded index hr status true (fun _ => rfl) (fun _ => rfl)).abort
  · rename_i hne
    refine DirectoryRun.Invariant.slotSubJobReady ?_ hs
    exact h.childRecorded index hr status r.abortRequested (fun he => absurd he hne)
      (fun ha => ha)

theorem DirectoryRun.Invariant.selfReady {cap : Nat} {r : DirectoryRun}
    (h : DirectoryRun.Invariant cap r) (hr : r.selfStatus = JobStatus.Running) (j : Job) :
    DirectoryRun.Invariant cap
      (DirectoryRun.slotSubJobReady cap
        { r with dir := { r.dir with _firstJob := some j } }) := by
  have hs := h.status_running (Or.inl hr)
  refine DirectoryRun.Invariant.slotSubJobReady ?_ hs
  exact
    { running_eq := h.running_eq, length_eq := h.length_eq,
      current_ge := h.current_ge, after_current := h.after_current,
      unaborted := h.unaborted, not_started := h.not_started,
      self_running := (fun _ => rfl), children_le := h.children_le,
      starts_lt := h.starts_lt, starts_length := h.starts_length,
      severity_le := h.severity_le, severity_mem := h.severity_mem,
      aggregate_kind := h.aggregate_kind, fatal_aborts := h.fatal_aborts,
      finished := (fun k hk => by rw [hs] at hk; cases hk) }

theorem DirectoryRun.Invariant.childReady {cap : Nat} {r : DirectoryRun}
    (h : DirectoryRun.Invariant cap r) (index : Nat)
    (hr : r.childStatus.get? index = some JobStatus.Running) (j : Job) :
    DirectoryRun.Invariant cap
      (DirectoryRun.slotSubJobReady cap
        { r with dir := { r.dir with _subJobs := r.dir._subJobs.set index j } }) := by
  have hs := h.status_running (Or.inr ⟨index, hr⟩)
  refine DirectoryRun.Invariant.slotSubJobReady ?_ hs
  exact
    { running_eq := h.running_eq,
      length_eq := (by simp only [List.length_set]; exact h.length_eq),
      current_ge := h.current_ge, after_current := h.after_current,
      unaborted := h.unaborted, not_started := h.not_started,
      self_running := h.self_running, children_le := h.children_le,
      starts_lt := h.starts_lt, starts_length := h.starts_length,
      severity_le := h.severity_le, severity_mem := h.severity_mem,
      aggregate_kind := h.aggregate_kind, fatal_aborts := h.fatal_aborts,
      finished := (fun k hk => by rw [hs] at hk; cases hk) }

theorem DirectoryRun.Invariant.step {cap : Nat} {r : DirectoryRun}
    (h : DirectoryRun.Invariant cap r) (event : RunEvent) :
    DirectoryRun.Invariant cap (r.step cap event) := by
  cases event with
  | start =>
    simp only [DirectoryRun.step]
    split
    · rename_i hs
      exact h.start hs
    · exact h
  | selfFinished status =>
    simp only [DirectoryRun.step]
    split
    · rename_i hr
      exact h.selfFinished hr status
    · exact h
  | childFinished index status =>
    simp only [DirectoryRun.step]
    split
    · rename_i hr
      exact h.childFinished index hr status
    · exact h
  | selfReady =>
    simp only [DirectoryRun.step]
    split
    · split
      · rename_i hr
        exact h.selfReady hr.1 _
      · exact h
    · exact h
  | childReady index =>
    simp only [DirectoryRun.step]
    split
    · split
      · rename_i hr
        exact h.childReady index hr.1 _
      · exact h
    · exact h
  | abort =>
    simp only [DirectoryRun.step]
    exact h.abort

theorem DirectoryRun.Invariant.run {cap : Nat} {r : DirectoryRun}
    (h : DirectoryRun.Invariant cap r) (events : List RunEvent) :
    DirectoryRun.Invariant cap (r.run cap events) := by
  induction events generalizing r with
  | nil => exact h
  | cons e es ih => exact ih (h.step e)

theorem DirectoryRun.run_append (cap : Nat) (r : DirectoryRun) (before after : List RunEvent) :
    r.run cap (before ++ after) = (r.run cap before).run cap after := by
  simp [DirectoryRun.run, List.foldl_append]

theorem DirectoryRun.startChild_fields (r : DirectoryRun) (index : Nat) (next : Job) :
    (r.startChild index next).dir._current = index ∧
    (r.startChild index next).dir._subJobs = r.dir._subJobs := ⟨rfl, rfl⟩

/-- The loop of the scheduling helper never stops for lack of turns when the turns
cover the children after `_current`: in the state it returns, the condition of the
`while` is false. -/
theorem DirectoryRun.scheduleLoop_turns_suffice (cap turns : Nat) (r : DirectoryRun)
    (hge : -1 ≤ r.dir._current)
    (ht : (r.dir._subJobs.length : Int) ≤ r.dir._current + 1 + turns) :
    ¬ ((DirectoryRun.scheduleLoop cap turns r).abortRequested = false ∧
        (DirectoryRun.scheduleLoop cap turns r).runningChildren < cap ∧
        (DirectoryRun.scheduleLoop cap turns r).dir._current + 1 <
          ((DirectoryRun.scheduleLoop cap turns r).dir._subJobs.length : Int) ∧
        (DirectoryRun.scheduleLoop cap turns r).pendingReadiness = false) := by
  induction turns generalizing r with
  | zero =>
    simp only [DirectoryRun.scheduleLoop]
    intro hg
    have := hg.2.2.1
    simp only [Nat.cast_zero, add_zero] at ht
    omega
  | succ turns ih =>
    unfold DirectoryRun.scheduleLoop
    split
    · rename_i hg
      split
      · rename_i next _
        obtain ⟨h1, h2⟩ := r.startChild_fields (r.dir._current + 1).toNat next
        apply ih
        · rw [h1]; omega
        · rw [h1, h2]
          push_cast at ht ⊢
          omega
      · rename_i hnone
        exfalso
        rw [List.get?_eq_none] at hnone
        have := hg.2.2.1
        omega
    · rename_i hg
      exact hg

/-- In a run, the scheduling helper is given one turn per child, which is enough: it
returns only when the condition of its `while` is false. -/
theorem DirectoryRun.Invariant.scheduleLoop_complete {cap : Nat} {r : DirectoryRun}
    (h : DirectoryRun.Invariant cap r) :
    ¬ ((DirectoryRun.scheduleLoop cap r.dir._subJobs.length r).abortRequested = false ∧
        (DirectoryRun.scheduleLoop cap r.dir._subJobs.length r).runningChildren < cap ∧
        (DirectoryRun.scheduleLoop cap r.dir._subJobs.length r).dir._current + 1 <
          ((DirectoryRun.scheduleLoop cap r.dir._subJobs.length r).dir._subJobs.length : Int) ∧
        (DirectoryRun.scheduleLoop cap r.dir._subJobs.length r).pendingReadiness = false) := by
  apply DirectoryRun.scheduleLoop_turns_suffice
  · exact h.current_ge
  · have := h.current_ge
    omega

/-! ## A directory job reports as soon as its jobs have finished -/

theorem DirectoryRun.scheduleLoop_aborted (cap turns : Nat) (r : DirectoryRun)
    (h : r.abortRequested = true) : DirectoryRun.scheduleLoop cap turns r = r := by
  cases turns with
  | zero => rfl
  | succ turns =>
    unfold DirectoryRun.scheduleLoop
    rw [if_neg]
    intro hg
    rw [h] at hg
    cases hg.1

theorem DirectoryRun.finishIfDone_fields (r : DirectoryRun) :
    r.finishIfDone.abortRequested = r.abortRequested ∧
    r.finishIfDone.childStarts = r.childStarts := by
  unfold DirectoryRun.finishIfDone
  split <;> exact ⟨rfl, rfl⟩

theorem DirectoryRun.abort_fields (r : DirectoryRun) :
    r.abort.abortRequested = true ∧ r.abort.childStarts = r.childStarts := by
  unfold DirectoryRun.abort
  obtain ⟨h1, h2⟩ := DirectoryRun.finishIfDone_fields
    { r with
      dir := (PropagateDirectory.abort r.dir).1
      abortRequested := true
      status := r.status.abort
      selfStatus := r.selfStatus.abort
      childStatus := r.childStatus.map JobStatus.abort }
  exact ⟨h1, h2⟩

theorem DirectoryRun.slotSubJobReady_aborted (cap : Nat) (r : DirectoryRun)
    (h : r.abortRequested = true) :
    (r.slotSubJobReady cap).abortRequested = true ∧
    (r.slotSubJobReady cap).childStarts = r.childStarts := by
  unfold DirectoryRun.slotSubJobReady
  rw [DirectoryRun.scheduleLoop_aborted cap _ r h]
  obtain ⟨h1, h2⟩ := r.finishIfDone_fields
  exact ⟨h1.trans h, h2⟩

theorem DirectoryRun.slotSubJobFinished_aborted (cap : Nat) (r : DirectoryRun) (status : Status)
    (h : r.abortRequested = true) :
    (DirectoryRun.slotSubJobFinished cap r status).abortRequested = true ∧
    (DirectoryRun.slotSubJobFinished cap r status).childStarts = r.childStarts := by
  unfold DirectoryRun.slotSubJobFinished
  split
  · exact DirectoryRun.abort_fields _
  · exact DirectoryRun.slotSubJobReady_aborted cap _ h

/-- Once the abort-requested flag is set, an event leaves it set and starts no
child. -/
theorem DirectoryRun.step_aborted (cap : Nat) (r : DirectoryRun) (event : RunEvent)
    (h : r.abortRequested = true) :
    (r.step cap event).abortRequested = true ∧
    (r.step cap event).childStarts = r.childStarts := by
  cases event with
  | start =>
    simp only [DirectoryRun.step]
    split
    · unfold DirectoryRun.start
      split
      · exact ⟨h, rfl⟩
      · exact DirectoryRun.slotSubJobReady_aborted cap _ h
    · exact ⟨h, rfl⟩
  | selfFinished status =>
    simp only [DirectoryRun.step]
    split
    · exact DirectoryRun.slotSubJobFinished_aborted cap _ status h
    · exact ⟨h, rfl⟩
  | childFinished index status =>
    simp only [DirectoryRun.step]
    split
    · exact DirectoryRun.slotSubJobFinished_aborted cap _ status h
    · exact ⟨h, rfl⟩
  | selfReady =>
    simp only [DirectoryRun.step]
    split
    · split
      · exact DirectoryRun.slotSubJobReady_aborted cap _ h
      · exact ⟨h, rfl⟩
    · exact ⟨h, rfl⟩
  | childReady index =>
    simp only [DirectoryRun.step]
    split
    · split
      · exact DirectoryRun.slotSubJobReady_aborted cap _ h
      · exact ⟨h, rfl⟩
    · exact ⟨h, rfl⟩
  | abort =>
    simp only [DirectoryRun.step]
    exact DirectoryRun.abort_fields r

theorem DirectoryRun.run_aborted (cap : Nat) (r : DirectoryRun) (events : List RunEvent)
    (h : r.abortRequested = true) :
    (r.run cap events).abortRequested = true ∧
    (r.run cap events).childStarts = r.childStarts := by
  induction events generalizing r with
  | nil => exact ⟨h, rfl⟩
  | cons e es ih =>
    obtain ⟨h1, h2⟩ := r.step_aborted cap e h
    obtain ⟨h3, h4⟩ := ih (r.step cap e) h1
    exact ⟨h3, h4.trans h2⟩

/-- Modelled run: once a `FatalError` is among the outcomes of a directory job, the
abort-requested flag is set, and whatever happens afterwards no child is started. -/
theorem DirectoryRun.no_start_after_fatal (cap self propagator : Nat) (item : SyncFileItem)
    (firstJob : Option Job) (children : List Job) (events later : List RunEvent)
    (h : Status.FatalError ∈ ((DirectoryRun.init (PropagateDirectory.build self propagator
      item firstJob children)).run cap events).outcomes) :
    ((DirectoryRun.init (PropagateDirectory.build self propagator item firstJob
        children)).run cap events).abortRequested = true ∧
    ((DirectoryRun.init (PropagateDirectory.build self propagator item firstJob
        children)).run cap (events ++ later)).childStarts =
      ((DirectoryRun.init (PropagateDirectory.build self propagator item firstJob
        children)).run cap events).childStarts := by
  have hinv := (DirectoryRun.invariant_init cap self propagator item firstJob children).run
    events
  have hflag := hinv.fatal_aborts h
  refine ⟨hflag, ?_⟩
  rw [DirectoryRun.run_append]
  exact (DirectoryRun.run_aborted cap _ later hflag).2

/-! ## The concurrency cap -/

/-- C10: for every change record, `start()` of the `PropagateIgnoreJob` built from it
does one thing: it calls `done(FileIgnored)` (with the default, empty error string),
exactly once.  Its body performs no action on the file system, the network or the
journal, and the job is left in the state in which `done` leaves it. -/
theorem PropagateIgnoreJob.start_calls_done_FileIgnored (done : DoneBody)
    (self propagator : Nat) (item : SyncFileItem) :
    (PropagateIgnoreJob.start done (PropagateIgnoreJob.ctor self propagator item)).2 =
      [Effect.doneCall self Status.FileIgnored []
        (done (PropagateIgnoreJob.ctor self propagator item) Status.FileIgnored []).2] ∧
    (PropagateIgnoreJob.start done (PropagateIgnoreJob.ctor self propagator item)).1 =
      (done (PropagateIgnoreJob.ctor self propagator item) Status.FileIgnored []).1 ∧
    (PropagateIgnoreJob.start done (PropagateIgnoreJob.ctor self propagator item)).2.length
      = 1 ∧
    (PropagateIgnoreJob.start done (PropagateIgnoreJob.ctor self propagator item)).2.countP
      (Effect.isDoneWith Status.FileIgnored) = 1 ∧
    (PropagateIgnoreJob.start done (PropagateIgnoreJob.ctor self propagator item)).2.any
      Effect.isExternalAction = false := by
  refine ⟨rfl, rfl, rfl, ?_, ?_⟩
  · simp [PropagateIgnoreJob.start, Effect.isDoneWith]
  · simp [PropagateIgnoreJob.start, Effect.isExternalAction]

/-! ## `PropagateDirectory::append` -/

theorem PropagateDirectory.foldl_append_fields (js : List Job) (d : PropagateDirectory) :
    (js.foldl PropagateDirectory.append d)._subJobs = d._subJobs ++ js ∧
    (js.foldl PropagateDirectory.append d)._firstJob = d._firstJob ∧
    (js.foldl PropagateDirectory.append d)._current = d._current ∧
    (js.foldl PropagateDirectory.append d)._runningNow = d._runningNow ∧
    (js.foldl PropagateDirectory.append d)._hasError = d._hasError := by
  induction js generalizing d with
  | nil => simp
  | cons c cs ih =>
    obtain ⟨h1, h2, h3, h4, h5⟩ := ih (d.append c)
    simp only [List.foldl_cons]
    refine ⟨?_, ?_, ?_, ?_, ?_⟩
    · rw [h1]; simp [PropagateDirectory.append]
    · rw [h2]; rfl
    · rw [h3]; rfl
    · rw [h4]; rfl
    · rw [h5]; rfl

/-- C11: for every directory job and every sequence of jobs appended with
`PropagateDirectory::append`, `_subJobs` is the previous children followed by the
appended jobs in the order of the calls.  One `append` puts the job at the end: the
sequence grows by exactly one, the children that were there are the same, at the
same places, and `_current`, `_runningNow`, `_hasError` (and the self-job) are as
they were; the same holds after any number of calls. -/
theorem PropagateDirectory.append_keeps_order (d : PropagateDirectory) (j : Job)
    (js : List Job) :
    (js.foldl PropagateDirectory.append d)._subJobs = d._subJobs ++ js ∧
    (d.append j)._subJobs = d._subJobs ++ [j] ∧
    (d.append j)._subJobs.length = d._subJobs.length + 1 ∧
    (d.append j)._subJobs.take d._subJobs.length = d._subJobs ∧
    (d.append j)._subJobs.getLast? = some j ∧
    (d.append j)._current = d._current ∧
    (d.append j)._runningNow = d._runningNow ∧
    (d.append j)._hasError = d._hasError ∧
    (d.append j)._firstJob = d._firstJob ∧
    (js.foldl PropagateDirectory.append d)._subJobs.length = d._subJobs.length + js.length ∧
    (js.foldl PropagateDirectory.append d)._current = d._current ∧
    (js.foldl PropagateDirectory.append d)._runningNow = d._runningNow ∧
    (js.foldl PropagateDirectory.append d)._hasError = d._hasError := by
  obtain ⟨h1, _, h3, h4, h5⟩ := PropagateDirectory.foldl_append_fields js d
  refine ⟨h1, rfl, ?_, ?_, ?_, rfl, rfl, rfl, rfl, ?_, h3, h4, h5⟩
  · simp [PropagateDirectory.append]
  · simp [PropagateDirectory.append]
  · simp [PropagateDirectory.append]
  · rw [h1]; simp

/-! ## The tray GUI -/

theorem recentMenuAfter_append (a b : List GuiEffect) (menu : List RecentMenuEntry) :
    recentMenuAfter (a ++ b) menu = recentMenuAfter b (recentMenuAfter a menu) := by
  induction a generalizing menu with
  | nil => simp [recentMenuAfter]
  | cons e es ih => simp [recentMenuAfter, ih]

theorem recentMenuAfter_addTexts {α : Type} (items : List α) (text : α → TrText)
    (menu : List RecentMenuEntry) :
    recentMenuAfter (items.map (fun info => GuiEffect.recentMenuAddText (text info))) menu =
      menu ++ items.map (fun info => RecentMenuEntry.text (text info)) := by
  induction items generalizing menu with
  | nil => simp [recentMenuAfter]
  | cons i is ih => simp [recentMenuAfter, GuiEffect.onRecentMenu, ih]

/-- The body of `slotRebuildRecentMenus()`, spelled out: `clear()`, then the entry "No
items synced recently" or one entry "%1 (%2, %3)" per item that
`recentChangedItems(5)` returns, in order, then `_actionRecent`. -/
theorem ownCloudGui.slotRebuildRecentMenus_body (env : GuiEnv) :
    ownCloudGui.slotRebuildRecentMenus env =
      [GuiEffect.recentMenuClear] ++
      (if env.recentChangedItems 5 = [] then
        [GuiEffect.recentMenuAddText { source := "No items synced recently", args := [] }]
       else
        (env.recentChangedItems 5).map (fun info =>
          GuiEffect.recentMenuAddText
            { source := "%1 (%2, %3)"
              args := [TextArg.str info.current_file,
                TextArg.str (env.asResultString info.kind),
                TextArg.str (env.timeToString info.timestamp "hh:mm")] })) ++
      [GuiEffect.recentMenuAddRecentAction] := by
  unfold ownCloudGui.slotRebuildRecentMenus
  cases h : env.recentChangedItems 5 <;> simp [h, tr, TrText.arg]

/-- Whatever the menu held, after `slotRebuildRecentMenus()` it holds the entry "No
items synced recently" or one entry per recently changed item, and then
`_actionRecent`. -/
theorem ownCloudGui.slotRebuildRecentMenus_menu (env : GuiEnv) (menu : List RecentMenuEntry) :
    recentMenuAfter (ownCloudGui.slotRebuildRecentMenus env) menu =
      (if env.recentChangedItems 5 = [] then
        [RecentMenuEntry.text { source := "No items synced recently", args := [] }]
       else
        (env.recentChangedItems 5).map (fun info =>
          RecentMenuEntry.text
            { source := "%1 (%2, %3)"
              args := [TextArg.str info.current_file,
                TextArg.str (env.asResultString info.kind),
                TextArg.str (env.timeToString info.timestamp "hh:mm")] })) ++
      [RecentMenuEntry.actionRecent] := by
  rw [ownCloudGui.slotRebuildRecentMenus_body, recentMenuAfter_append, recentMenuAfter_append]
  by_cases h : env.recentChangedItems 5 = []
  · simp [h, recentMenuAfter, GuiEffect.onRecentMenu]
  · simp only [h, if_false, recentMenuAfter_addTexts]
    simp [recentMenuAfter, GuiEffect.onRecentMenu]

/-- C12: for every progress event, `slotUpdateProgress` calls
`slotRebuildRecentMenus()` once when the kind is `EndDownload`, `EndUpload`,
`EndDelete` or `EndSync` and not at all otherwise; the body of that call clears the
menu, adds "No items synced recently" or one entry "%1 (%2, %3)" per item of
`recentChangedItems(5)`, and adds `_actionRecent`, so that for those four kinds the
menu, whatever it held, holds the recent changes afterwards, and for every other
kind it is left as it was; the slot removes the warning icon (`setIcon(QIcon())`)
exactly when the kind is `StartSync`; and it schedules `slotDisplayIdle()`, which
sets the text "Up to date", exactly when the kind is `EndSync`, once and after
2000 ms. -/
theorem ownCloudGui.slotUpdateProgress_by_kind (env : GuiEnv) (folder : QString)
    (progress : Progress.Info) :
    (ownCloudGui.slotUpdateProgress env folder progress).countP GuiEffect.isRebuild =
      (if progress.kind = Progress.Kind.EndDownload ∨ progress.kind = Progress.Kind.EndUpload ∨
          progress.kind = Progress.Kind.EndDelete ∨ progress.kind = Progress.Kind.EndSync
        then 1 else 0) ∧
    (ownCloudGui.slotUpdateProgress env folder progress).any GuiEffect.isClearIcon =
      decide (progress.kind = Progress.Kind.StartSync) ∧
    (ownCloudGui.slotUpdateProgress env folder progress).any GuiEffect.isIdleTimer =
      decide (progress.kind = Progress.Kind.EndSync) ∧
    (ownCloudGui.slotUpdateProgress env folder progress).countP GuiEffect.isIdleTimer =
      (if progress.kind = Progress.Kind.EndSync then 1 else 0) ∧
    (ownCloudGui.slotUpdateProgress env folder progress).filter GuiEffect.isIdleTimer =
      (if progress.kind = Progress.Kind.EndSync then [GuiEffect.singleShotDisplayIdle 2000]
        else []) ∧
    (ownCloudGui.slotUpdateProgress env folder progress).filter GuiEffect.isRebuild =
      (if progress.kind = Progress.Kind.EndDownload ∨ progress.kind = Progress.Kind.EndUpload ∨
          progress.kind = Progress.Kind.EndDelete ∨ progress.kind = Progress.Kind.EndSync
        then [GuiEffect.rebuildRecentMenus (ownCloudGui.slotRebuildRecentMenus env)]
        else []) ∧
    ownCloudGui.slotDisplayIdle = [GuiEffect.setStatusText (tr "Up to date")] ∧
    ownCloudGui.slotRebuildRecentMenus env =
      [GuiEffect.recentMenuClear] ++
      (if env.recentChangedItems 5 = [] then
        [GuiEffect.recentMenuAddText { source := "No items synced recently", args := [] }]
       else
        (env.recentChangedItems 5).map (fun info =>
          GuiEffect.recentMenuAddText
            { source := "%1 (%2, %3)"
              args := [TextArg.str info.current_file,
                TextArg.str (env.asResultString info.kind),
                TextArg.str (env.timeToString info.timestamp "hh:mm")] })) ++
      [GuiEffect.recentMenuAddRecentAction] ∧
    (∀ menu : List RecentMenuEntry,
      recentMenuAfter (ownCloudGui.slotUpdateProgress env folder progress) menu =
        (if progress.kind = Progress.Kind.EndDownload ∨
            progress.kind = Progress.Kind.EndUpload ∨
            progress.kind = Progress.Kind.EndDelete ∨ progress.kind = Progress.Kind.EndSync
          then
            (if env.recentChangedItems 5 = [] then
              [RecentMenuEntry.text { source := "No items synced recently", args := [] }]
             else
              (env.recentChangedItems 5).map (fun info =>
                RecentMenuEntry.text
                  { source := "%1 (%2, %3)"
                    args := [TextArg.str info.current_file,
                      TextArg.str (env.asResultString info.kind),
                      TextArg.str (env.timeToString info.timestamp "hh:mm")] })) ++
            [RecentMenuEntry.actionRecent]
          else menu)) := by
  have hbody := ownCloudGui.slotRebuildRecentMenus_menu env
  obtain ⟨kind, f, t, n, c, b, s⟩ := progress
  refine ⟨?_, ?_, ?_, ?_, ?_, ?_, ?_, ownCloudGui.slotRebuildRecentMenus_body env, ?_⟩
  · cases kind <;> simp [ownCloudGui.slotUpdateProgress, GuiEffect.isRebuild]
  · cases kind <;> simp [ownCloudGui.slotUpdateProgress, GuiEffect.isClearIcon]
  · cases kind <;> simp [ownCloudGui.slotUpdateProgress, GuiEffect.isIdleTimer]
  · cases kind <;> simp [ownCloudGui.slotUpdateProgress, GuiEffect.isIdleTimer]
  · cases kind <;> simp [ownCloudGui.slotUpdateProgress, GuiEffect.isIdleTimer]
  · cases kind <;> simp [ownCloudGui.slotUpdateProgress, GuiEffect.isRebuild]
  · simp [ownCloudGui.slotDisplayIdle]
  · intro menu
    have hcall := fun m : List RecentMenuEntry =>
      (show GuiEffect.onRecentMenu
          (GuiEffect.rebuildRecentMenus (ownCloudGui.slotRebuildRecentMenus env)) m =
        recentMenuAfter (ownCloudGui.slotRebuildRecentMenus env) m from rfl).trans (hbody m)
    simp only [ownCloudGui.slotUpdateProgress]
    generalize GuiEffect.rebuildRecentMenus (ownCloudGui.slotRebuildRecentMenus env) = call
      at hcall ⊢
    cases kind <;> simp [recentMenuAfter, GuiEffect.onRecentMenu, hcall]

/-- C15: for every `total` and `used`, `slotRefreshQuotaDisplay` never divides by zero:
it always runs to its end.  When `total` is 0 it sets the text "Quota n/a" and
does nothing else; otherwise it sets the text "%1% of %2 in use" with the formatted
`used / (double)total * 100` and the formatted `total`. -/
theorem ownCloudGui.slotRefreshQuotaDisplay_no_division_by_zero (env : GuiEnv)
    (total used : Int) :
    ownCloudGui.slotRefreshQuotaDisplay env total used ≠
      Except.error Fault.divisionByZero ∧
    ownCloudGui.slotRefreshQuotaDisplay env 0 used =
      Except.ok [GuiEffect.setQuotaText (tr "Quota n/a")] ∧
    ownCloudGui.slotRefreshQuotaDisplay env total used =
      (if total = 0 then Except.ok [GuiEffect.setQuotaText (tr "Quota n/a")]
       else Except.ok [GuiEffect.setQuotaText
        { source := "%1% of %2 in use"
          args := [TextArg.str (env.compactFormatDouble
              (DoubleExpr.mul (DoubleExpr.div (DoubleExpr.ofInt used) (DoubleExpr.ofInt total))
                (DoubleExpr.ofInt 100)) 1),
            TextArg.str (env.octetsToString total)] }]) := by
  have h : ownCloudGui.slotRefreshQuotaDisplay env total used =
      (if total = 0 then Except.ok [GuiEffect.setQuotaText (tr "Quota n/a")]
       else Except.ok [GuiEffect.setQuotaText
        { source := "%1% of %2 in use"
          args := [TextArg.str (env.compactFormatDouble
              (DoubleExpr.mul (DoubleExpr.div (DoubleExpr.ofInt used) (DoubleExpr.ofInt total))
                (DoubleExpr.ofInt 100)) 1),
            TextArg.str (env.octetsToString total)] }]) := by
    unfold ownCloudGui.slotRefreshQuotaDisplay
    by_cases ht : total = 0
    · simp [ht]
    · simp [ht, DoubleExpr.divide, tr, TrText.arg, bind, Except.bind, pure, Except.pure]
  refine ⟨?_, ?_, h⟩
  · rw [h]
    split <;> simp
  · simp [ownCloudGui.slotRefreshQuotaDisplay]

/-- C13, evaluated: for an alias without folder, `slotFolderOpenAction` uses the null
pointer: `f->path()` is streamed to `qDebug()` before `if( f )`.  With debug output
(the default build) the slot stops there, for every alias; without it, the slot does
nothing.  When a folder exists the slot opens one URL. -/
theorem ownCloudGui.slotFolderOpenAction_reads_missing_folder (env : GuiEnv)
    (folderAlias : QString) (folder : Folder) :
    ownCloudGui.slotFolderOpenAction sampleGuiEnv ['d', 'o', 'c', 's'] =
      Except.error Fault.nullDereference ∧
    ownCloudGui.slotFolderOpenAction
        { env with folder := fun _ => none, debugOutput := true } folderAlias =
      Except.error Fault.nullDereference ∧
    ownCloudGui.slotFolderOpenAction
        { env with folder := fun _ => none, debugOutput := false } folderAlias =
      Except.ok [] ∧
    (∃ url, ownCloudGui.slotFolderOpenAction
        { env with folder := fun _ => some folder } folderAlias =
      Except.ok ((if env.debugOutput then
          [GuiEffect.debug "opening local url " folder.path] else []) ++
        [GuiEffect.openUrl url])) := by
  refine ⟨rfl, rfl, rfl, ?_⟩
  unfold ownCloudGui.slotFolderOpenAction
  cases hd : env.debugOutput <;> cases hw : env.win32 <;>
    simp [deref, bind, Except.bind, pure, Except.pure, hd, hw]
  all_goals split <;> simp

/-! ## The SSL button -/

theorem SslButton.findTrustAnchor_nil_chain (rootCA : QSslCertificate)
    (rest : List QSslCertificate) :
    SslButton.findTrustAnchor [] (rootCA :: rest) = Except.error Fault.lastOfEmptyList := rfl

theorem SslButton.findTrustAnchor_of_last (front : List QSslCertificate)
    (last : QSslCertificate) (roots : List QSslCertificate) :
    SslButton.findTrustAnchor (front ++ [last]) roots =
      Except.ok (front ++ [last] ++
        (roots.find? (fun rootCA =>
          decide (rootCA.issuerCommonName = last.issuerCommonName) &&
          decide (rootCA.issuerOrganization = last.issuerOrganization))).toList) := by
  have hl : lastOf (front ++ [last]) = Except.ok last := by
    simp [lastOf]
  induction roots with
  | nil => simp [SslButton.findTrustAnchor]
  | cons rootCA rest ih =>
    unfold SslButton.findTrustAnchor
    simp only [hl, bind, Except.bind, pure, Except.pure]
    by_cases h1 : rootCA.issuerCommonName = last.issuerCommonName
    · by_cases h2 : rootCA.issuerOrganization = last.issuerOrganization
      · simp [h1, h2, List.find?_cons]
      · simp [h1, h2, List.find?_cons, ih]
    · simp [h1, List.find?_cons, ih]

theorem SslButton.addCertMenus_get? (env : SslEnv) (approvedCerts : List QSslCertificate)
    (certs : List QSslCertificate) (i : Int) (k : Nat) :
    (SslButton.addCertMenus env approvedCerts certs i).get? k =
      (certs.get? k).map (fun cert =>
        MenuEntry.certMenu (SslButton.buildCertMenu env cert approvedCerts (i + k))) := by
  induction certs generalizing i k with
  | nil => simp [SslButton.addCertMenus]
  | cons c cs ih =>
    cases k with
    | zero => simp [SslButton.addCertMenus]
    | succ k =>
      simp only [SslButton.addCertMenus, List.get?_cons_succ, ih (i + 1) k]
      have : i + 1 + (k : Int) = i + ((k + 1 : Nat) : Int) := by push_cast; ring
      rw [this]

theorem SslButton.addCertMenus_length (env : SslEnv) (approvedCerts : List QSslCertificate)
    (certs : List QSslCertificate) (i : Int) :
    (SslButton.addCertMenus env approvedCerts certs i).length = certs.length := by
  induction certs generalizing i with
  | nil => rfl
  | cons c cs ih => simp [SslButton.addCertMenus, ih]

/-- C14, evaluated: for a connected `https` account that reports an empty peer
certificate chain, on a system with at least one CA certificate,
`updateAccountInfo` takes `chain.last()` of the empty chain in the first turn of its
search for the trust anchor.  In the other cases it completes: with an empty chain
and no system CA the menu holds the header only; with a chain that has a last
element, the menu holds the header, then one sub-menu per certificate of the chain
extended by the first system CA whose issuer matches the issuer of the last element
(if any), from the last certificate to the first, built with positions 0, 1, 2, ... -/
theorem SslButton.updateAccountInfo_last_of_empty_chain (env : SslEnv) (button : SslButton)
    (cipher : QSslCipher) (approvedCerts front : List QSslCertificate)
    (last rootCA : QSslCertificate) (rest : List QSslCertificate) (k : Nat) :
    SslButton.updateAccountInfo sampleSslEnv sampleButton (some sampleAccountWithoutChain) =
      Except.error Fault.lastOfEmptyList ∧
    SslButton.updateAccountInfo { env with systemCaCertificates := rootCA :: rest } button
        (some { state := AccountState.Connected, urlScheme := ['h', 't', 't', 'p', 's'],
                sessionCipher := cipher, peerCertificateChain := [],
                approvedCerts := approvedCerts }) =
      Except.error Fault.lastOfEmptyList ∧
    (∃ done, SslButton.updateAccountInfo { env with systemCaCertificates := [] } button
        (some { state := AccountState.Connected, urlScheme := ['h', 't', 't', 'p', 's'],
                sessionCipher := cipher, peerCertificateChain := [],
                approvedCerts := approvedCerts }) = Except.ok done ∧
      done.menu = some [MenuEntry.disabledAction (tr "Certificate information:")]) ∧
    (∃ done entries, SslButton.updateAccountInfo env button
        (some { state := AccountState.Connected, urlScheme := ['h', 't', 't', 'p', 's'],
                sessionCipher := cipher, peerCertificateChain := front ++ [last],
                approvedCerts := approvedCerts }) = Except.ok done ∧
      done.visible = true ∧
      done.menu = some (MenuEntry.disabledAction (tr "Certificate information:") :: entries) ∧
      entries.length = (front ++ [last] ++
        (env.systemCaCertificates.find? (fun root =>
          decide (root.issuerCommonName = last.issuerCommonName) &&
          decide (root.issuerOrganization = last.issuerOrganization))).toList).length ∧
      entries.length ≤ (front ++ [last]).length + 1 ∧
      entries.get? k =
        ((front ++ [last] ++
          (env.systemCaCertificates.find? (fun root =>
            decide (root.issuerCommonName = last.issuerCommonName) &&
            decide (root.issuerOrganization = last.issuerOrganization))).toList).reverse.get?
            k).map (fun cert =>
          MenuEntry.certMenu (SslButton.buildCertMenu env cert approvedCerts k))) := by
  refine ⟨rfl, rfl, ⟨_, rfl, rfl⟩, ?_⟩
  have hrun : SslButton.updateAccountInfo env button
      (some { state := AccountState.Connected, urlScheme := ['h', 't', 't', 'p', 's'],
              sessionCipher := cipher, peerCertificateChain := front ++ [last],
              approvedCerts := approvedCerts }) =
      Except.ok
        { visible := true
          icon := QIcon.resource ":/mirall/resources/lock-https.png"
          toolTip := ((tr "This connection is encrypted using %1 bit %2.\n").arg
            (TextArg.num cipher.usedBits)).arg (TextArg.str cipher.name)
          menu := some (MenuEntry.disabledAction (tr "Certificate information:") ::
            SslButton.addCertMenus env approvedCerts
              (front ++ [last] ++
                (env.systemCaCertificates.find? (fun root =>
                  decide (root.issuerCommonName = last.issuerCommonName) &&
                  decide (root.issuerOrganization = last.issuerOrganization))).toList).reverse
              0) } := by
    unfold SslButton.updateAccountInfo
    simp only [SslButton.findTrustAnchor_of_last, bind, Except.bind, pure, Except.pure,
      ne_eq, not_true_eq_false, if_false, if_true]
  refine ⟨_, _, hrun, rfl, rfl, ?_, ?_, ?_⟩
  · rw [SslButton.addCertMenus_length, List.length_reverse]
  · rw [SslButton.addCertMenus_length, List.length_reverse]
    cases env.systemCaCertificates.find? (fun root =>
          decide (root.issuerCommonName = last.issuerCommonName) &&
          decide (root.issuerOrganization = last.issuerOrganization)) <;> simp
  · rw [SslButton.addCertMenus_get?]
    simp

end Mirall
